import Mathlib

/-!
Verification development for the write-back block cache in src/block_cache.c.

The C code keeps a fixed pool of 128 cache entries, a 257-bucket hash index
with intrusive chaining through the hash_next field, an intrusive doubly
linked LRU list, and a free list that reuses the hash_next field.  Two
embeddings are given:

1. A list-based model (this part of the file): each intrusive structure is
   represented by the list of slot indices it holds, in order.  Bucket
   chains are lists with the chain head first, the LRU list is a list with
   the most recently used slot first, the free list is a list with the
   stack top first.  This representation coincides with the pointer
   structures whenever every slot occurs at most once in each structure,
   which is the regime of a singly initialised cache (the invariant proved
   below).  The 512-byte payload is only ever copied wholesale (memcpy of
   BLOCK_SIZE bytes), so it is modelled as a single opaque natural number.

2. A pointer-level model (later in the file, names prefixed with P): link
   fields are explicit Option Nat values, chain walks are fuel bounded.
   It is used for the claims whose truth depends on states in which a slot
   is inserted into a structure it already occupies, which the list model
   cannot represent.
-/

def BLOCK_SIZE : Nat := 512
def CACHE_SIZE : Nat := 128
def HASH_SIZE : Nat := 257

/-- FatFs result codes used by the cache: RES_OK = 0. -/
def RES_OK : Nat := 0

/-- RES_PARERR = 4, produced by evict_entry when the LRU list is empty. -/
def RES_PARERR : Nat := 4

/-- One cache_entry of block_cache.c, without the intrusive link fields
(the list model keeps the structures as index lists instead).  The data
array is modelled as one opaque value since it is only copied wholesale. -/
structure CacheEntry where
  sector : Nat
  pdrv : Nat
  dirty : Bool
  valid : Bool
  data : Nat
deriving Repr, DecidableEq

/-- The zero-initialised entry produced by memset in block_cache_init. -/
def zeroEntry : CacheEntry :=
  { sector := 0, pdrv := 0, dirty := false, valid := false, data := 0 }

/-- The global mutable state of block_cache.c in the list model:
s_cache (slots), s_hash_table (bucket chains as index lists),
s_dirty_blocks, the LRU list (head = most recently used, last = tail =
eviction candidate) and the free list (head = stack top). -/
structure CacheState where
  slots : Nat → CacheEntry
  hash_table : Nat → List Nat
  dirty_blocks : Bool
  lru : List Nat
  free : List Nat

attribute [ext] CacheState

/-- The state of the C statics at program start: arrays zeroed,
s_dirty_blocks statically initialised to true, all list heads NULL. -/
def bootState : CacheState :=
  { slots := fun _ => zeroEntry
    hash_table := fun _ => []
    dirty_blocks := true
    lru := []
    free := [] }

/-- The device boundary (disk_read_no_cache / disk_write_no_cache for one
sector).  read returns a DRESULT code paired with the data delivered into
the buffer; write returns a DRESULT code. -/
structure Device where
  read : Nat → Nat → Nat × Nat
  write : Nat → Nat → Nat → Nat

/-- A device whose single-sector reads and writes always succeed,
returning 0 as data. -/
def okDevice : Device :=
  { read := fun _ _ => (RES_OK, 0), write := fun _ _ _ => RES_OK }

/-- Log entries recording the device I/O a cache operation performs. -/
inductive DevEvent where
  | readEv (pdrv sector : Nat)
  | writeEv (pdrv sector data : Nat)
deriving Repr, DecidableEq

/-- Update one pool slot. -/
def setSlot (s : CacheState) (i : Nat) (e : CacheEntry) : CacheState :=
  { s with slots := fun j => if j = i then e else s.slots j }

/-- hash_key of block_cache.c for the 32-bit LBA_t build: the C computes
value = sector XOR (pdrv shifted left by 32 - sizeof(BYTE) = 31 bits) in
uint32 arithmetic, then (value * 2654435761) in uint32 arithmetic, reduced
modulo HASH_SIZE. -/
def hash_key (pdrv sector : Nat) : Nat :=
  let value := (sector % 2 ^ 32) ^^^ ((pdrv <<< 31) % 2 ^ 32)
  ((value * 2654435761) % 2 ^ 32) % HASH_SIZE

/-- The bucket a slot belongs to under its current key, as computed by the
calls hash_key(e->pdrv, e->sector) in hash_insert and hash_remove. -/
def bucketOf (s : CacheState) (i : Nat) : Nat :=
  hash_key (s.slots i).pdrv (s.slots i).sector

/-- The match test of the hash_lookup chain walk:
(e->valid) AND (e->sector == sector) AND (e->pdrv == pdrv). -/
def entry_matches (e : CacheEntry) (pdrv sector : Nat) : Bool :=
  e.valid && (e.sector == sector) && (e.pdrv == pdrv)

/-- hash_lookup: walk the bucket chain of hash_key(pdrv, sector) from the
head and return the first matching slot. -/
def hash_lookup (s : CacheState) (pdrv sector : Nat) : Option Nat :=
  (s.hash_table (hash_key pdrv sector)).find?
    (fun i => entry_matches (s.slots i) pdrv sector)

/-- hash_insert: prepend the slot to the bucket chain of its current key. -/
def hash_insert (s : CacheState) (i : Nat) : CacheState :=
  { s with hash_table := fun b =>
      if b = bucketOf s i then i :: s.hash_table (bucketOf s i)
      else s.hash_table b }

/-- hash_remove: walk the bucket chain of the current key of the slot and
unlink its first occurrence; if the slot is not in the chain the walk falls
off the end and the function returns with the index unchanged. -/
def hash_remove (s : CacheState) (i : Nat) : CacheState :=
  { s with hash_table := fun b =>
      if b = bucketOf s i then (s.hash_table (bucketOf s i)).erase i
      else s.hash_table b }

/-- lru_remove: detach the slot from the LRU list (updating neighbour
links and head and tail in C); removing a slot that is not in the list is
a no-op, matching the C pointer updates for a node with NULL links. -/
def lru_remove (s : CacheState) (i : Nat) : CacheState :=
  { s with lru := s.lru.erase i }

/-- lru_insert_front: make the slot the most recently used entry. -/
def lru_insert_front (s : CacheState) (i : Nat) : CacheState :=
  { s with lru := i :: s.lru }

/-- lru_touch: no-op when the slot is already the head, otherwise
lru_remove followed by lru_insert_front. -/
def lru_touch (s : CacheState) (i : Nat) : CacheState :=
  if s.lru.head? = some i then s else lru_insert_front (lru_remove s i) i

/-- free_get: pop the free list head, or return none when empty. -/
def free_get (s : CacheState) : Option Nat × CacheState :=
  match s.free with
  | [] => (none, s)
  | i :: rest => (some i, { s with free := rest })

/-- free_insert: mark the slot invalid and push it on the free list. -/
def free_insert (s : CacheState) (i : Nat) : CacheState :=
  { setSlot s i { s.slots i with valid := false } with
      free := i :: (setSlot s i { s.slots i with valid := false }).free }

/-- Result of evict_entry: the reclaimed slot (none on failure), the new
state, the value of s_evict_error as consumed by the caller on failure,
and the device I/O performed. -/
structure EvictResult where
  slot : Option Nat
  st : CacheState
  err : Nat
  log : List DevEvent

/-- evict_entry: take the LRU tail; if there is none fail with RES_PARERR.
If the tail is valid and dirty, write it back first and fail with the
device error if the write fails, leaving every structure untouched.
Otherwise remove the slot from the hash index and LRU list, clear valid
and dirty, and hand the slot to the caller (it is not pushed on the free
list). -/
def evict_entry (dev : Device) (s : CacheState) : EvictResult :=
  match s.lru.getLast? with
  | none => { slot := none, st := s, err := RES_PARERR, log := [] }
  | some i =>
    let e := s.slots i
    if e.valid && e.dirty then
      let r := dev.write e.pdrv e.sector e.data
      if r ≠ RES_OK then
        { slot := none, st := s, err := r
          log := [DevEvent.writeEv e.pdrv e.sector e.data] }
      else
        let s1 := lru_remove (hash_remove s i) i
        { slot := some i
          st := setSlot s1 i { s1.slots i with valid := false, dirty := false }
          err := r
          log := [DevEvent.writeEv e.pdrv e.sector e.data] }
    else
      let s1 := lru_remove (hash_remove s i) i
      { slot := some i
        st := setSlot s1 i { s1.slots i with valid := false, dirty := false }
        err := RES_OK
        log := [] }

/-- Result of block_cache_read_block: new state, DRESULT, the data copied
to the output buffer (none when no output buffer was passed or on
failure), and the device I/O performed. -/
structure ReadResult where
  st : CacheState
  code : Nat
  out : Option Nat
  log : List DevEvent

/-- The shared miss tail of block_cache_read_block: load the sector from
the device into the acquired slot; on device failure return that failure
with the slot left unindexed (and not on the free list).  On success fill
in the key, mark the slot valid and clean, insert it into the hash index
and LRU front, and copy the data out if requested. -/
def read_miss_load (dev : Device) (s : CacheState) (pdrv sector i : Nat)
    (has_out : Bool) : ReadResult :=
  let rd := dev.read pdrv sector
  if rd.1 ≠ RES_OK then
    { st := s, code := rd.1, out := none, log := [DevEvent.readEv pdrv sector] }
  else
    let s1 := setSlot s i
      { sector := sector, pdrv := pdrv, dirty := false, valid := true, data := rd.2 }
    { st := lru_insert_front (hash_insert s1 i) i
      code := RES_OK
      out := if has_out then some rd.2 else none
      log := [DevEvent.readEv pdrv sector] }

/-- block_cache_read_block.  has_out models whether out_data is non-NULL
(NULL implements the read-ahead probe). -/
def block_cache_read_block (dev : Device) (s : CacheState) (pdrv sector : Nat)
    (has_out : Bool) : ReadResult :=
  match hash_lookup s pdrv sector with
  | some i =>
      let s1 := lru_touch s i
      { st := s1, code := RES_OK
        out := if has_out then some (s1.slots i).data else none, log := [] }
  | none =>
      match free_get s with
      | (some i, s1) => read_miss_load dev s1 pdrv sector i has_out
      | (none, s1) =>
          let ev := evict_entry dev s1
          match ev.slot with
          | none => { st := ev.st, code := ev.err, out := none, log := ev.log }
          | some i =>
              let r := read_miss_load dev ev.st pdrv sector i has_out
              { st := r.st, code := r.code, out := r.out, log := ev.log ++ r.log }

/-- Result of block_cache_write_block and block_cache_flush. -/
structure WriteResult where
  st : CacheState
  code : Nat
  log : List DevEvent

/-- The miss tail of block_cache_write_block: no device read; copy the
input data into the acquired slot, set the key, mark dirty and valid, set
the global dirty flag, and insert into hash index and LRU front. -/
def write_miss_store (s : CacheState) (pdrv sector i data_in : Nat) : CacheState :=
  let s1 := setSlot s i
    { sector := sector, pdrv := pdrv, dirty := true, valid := true, data := data_in }
  let s2 := { s1 with dirty_blocks := true }
  lru_insert_front (hash_insert s2 i) i

/-- block_cache_write_block. -/
def block_cache_write_block (dev : Device) (s : CacheState)
    (pdrv sector data_in : Nat) : WriteResult :=
  match hash_lookup s pdrv sector with
  | some i =>
      let s1 := setSlot s i { s.slots i with data := data_in, dirty := true }
      let s2 := { s1 with dirty_blocks := true }
      { st := lru_touch s2 i, code := RES_OK, log := [] }
  | none =>
      match free_get s with
      | (some i, s1) =>
          { st := write_miss_store s1 pdrv sector i data_in
            code := RES_OK, log := [] }
      | (none, s1) =>
          let ev := evict_entry dev s1
          match ev.slot with
          | none => { st := ev.st, code := ev.err, log := ev.log }
          | some i =>
              { st := write_miss_store ev.st pdrv sector i data_in
                code := RES_OK, log := ev.log }

/-- The invalidate_all step at the bottom of the flush loop body. -/
def invalidate_if (ia : Bool) (s : CacheState) (i : Nat) : CacheState :=
  if ia then setSlot s i { s.slots i with valid := false } else s

/-- The for loop of block_cache_flush over slots i, i+1, ... (fuel many).
Returns the state, some r for an early return with DRESULT r, or none when
the loop ran to completion, plus the device writes performed. -/
def flush_loop (dev : Device) (fa ia : Bool) :
    Nat → Nat → CacheState → CacheState × Option Nat × List DevEvent
  | _, 0, s => (s, none, [])
  | i, fuel + 1, s =>
      let e := s.slots i
      if e.valid && e.dirty then
        let r := dev.write e.pdrv e.sector e.data
        if r ≠ RES_OK then
          (s, some r, [DevEvent.writeEv e.pdrv e.sector e.data])
        else
          let s1 := setSlot s i { e with dirty := false }
          if fa = false then
            (s1, some RES_OK, [DevEvent.writeEv e.pdrv e.sector e.data])
          else
            let s2 := invalidate_if ia s1 i
            let rest := flush_loop dev fa ia (i + 1) fuel s2
            (rest.1, rest.2.1, DevEvent.writeEv e.pdrv e.sector e.data :: rest.2.2)
      else
        let s2 := invalidate_if ia s i
        flush_loop dev fa ia (i + 1) fuel s2

/-- block_cache_flush: return RES_OK at once when the global dirty flag is
clear; otherwise run the loop over all CACHE_SIZE slots, propagating an
early return, and clear the global dirty flag only when the loop ran to
completion. -/
def block_cache_flush (dev : Device) (fa ia : Bool) (s : CacheState) : WriteResult :=
  if s.dirty_blocks = false then { st := s, code := RES_OK, log := [] }
  else
    let r := flush_loop dev fa ia 0 CACHE_SIZE s
    match r.2.1 with
    | some code => { st := r.1, code := code, log := r.2.2 }
    | none => { st := { r.1 with dirty_blocks := false }, code := RES_OK, log := r.2.2 }

/-- The free list population loop of block_cache_init: for each slot index
in order, push it on the free list when it is not valid. -/
def init_free_loop : Nat → Nat → CacheState → CacheState
  | _, 0, s => s
  | i, n + 1, s =>
      let s1 := if (s.slots i).valid = false then free_insert s i else s
      init_free_loop (i + 1) n s1

/-- block_cache_init: memset the pool and the hash table, empty the LRU
list, then push every invalid slot on the free list.  The C function does
not reset s_dirty_blocks, and it does not reset s_free_head either: after
memset the stale free head (if any) is a one-element chain, which the list
model renders by truncating the old free list to its head. -/
def block_cache_init (s : CacheState) : CacheState :=
  let s1 : CacheState :=
    { slots := fun _ => zeroEntry
      hash_table := fun _ => []
      dirty_blocks := s.dirty_blocks
      lru := []
      free := match s.free with | [] => [] | x :: _ => [x] }
  init_free_loop 0 CACHE_SIZE s1

/-- The cache state after the one initialisation the integration layer
performs (disk_init guards block_cache_init with a flag). -/
def initState : CacheState := block_cache_init bootState

/-- The public operations other than init, as driven by the filesystem
glue layer. -/
inductive Op where
  | rd (pdrv sector : Nat) (has_out : Bool)
  | wr (pdrv sector data_in : Nat)
  | fl (fa ia : Bool)

/-- Apply one operation against a given device behaviour, keeping the
state component. -/
def applyOp (dev : Device) (op : Op) (s : CacheState) : CacheState :=
  match op with
  | Op.rd p sec b => (block_cache_read_block dev s p sec b).st
  | Op.wr p sec d => (block_cache_write_block dev s p sec d).st
  | Op.fl fa ia => (block_cache_flush dev fa ia s).st

/-- Run a list of operations, each with its own device behaviour. -/
def runOps : List (Device × Op) → CacheState → CacheState
  | [], s => s
  | (dev, op) :: rest, s => runOps rest (applyOp dev op s)

/-- States reachable from the single initialisation by any sequence of
read, write and flush operations under arbitrary device behaviour. -/
inductive ReachableSI : CacheState → Prop
  | base : ReachableSI initState
  | step (dev : Device) (op : Op) {s : CacheState} :
      ReachableSI s → ReachableSI (applyOp dev op s)

/-!
Pointer-level model.  Entries carry the intrusive link fields of the C
struct as Option Nat values (none = NULL); the hash table holds bucket
head links; the LRU and free lists are given by head and tail links.  The
chain walks of hash_lookup and hash_remove are fuel bounded; every walk
arising in the concrete traces below terminates well within the fuel.
-/

/-- cache_entry of block_cache.c with its intrusive link fields. -/
structure PEntry where
  sector : Nat
  pdrv : Nat
  dirty : Bool
  valid : Bool
  hash_next : Option Nat
  lru_prev : Option Nat
  lru_next : Option Nat
  data : Nat
deriving Repr, DecidableEq

/-- The zero-initialised entry (memset). -/
def pzeroEntry : PEntry :=
  { sector := 0, pdrv := 0, dirty := false, valid := false
    hash_next := none, lru_prev := none, lru_next := none, data := 0 }

/-- The statics of block_cache.c at the pointer level. -/
structure PState where
  slots : Nat → PEntry
  hash_table : Nat → Option Nat
  dirty_blocks : Bool
  lru_head : Option Nat
  lru_tail : Option Nat
  free_head : Option Nat

/-- The state of the statics at program start. -/
def pbootState : PState :=
  { slots := fun _ => pzeroEntry
    hash_table := fun _ => none
    dirty_blocks := true
    lru_head := none
    lru_tail := none
    free_head := none }

/-- Update one pool slot of the pointer state. -/
def psetSlot (s : PState) (i : Nat) (e : PEntry) : PState :=
  { s with slots := fun j => if j = i then e else s.slots j }

/-- lru_remove at the pointer level, statement by statement. -/
def plru_remove (s : PState) (i : Nat) : PState :=
  let s1 := match (s.slots i).lru_prev with
    | some p => psetSlot s p { s.slots p with lru_next := (s.slots i).lru_next }
    | none => s
  let s2 := match (s1.slots i).lru_next with
    | some n => psetSlot s1 n { s1.slots n with lru_prev := (s1.slots i).lru_prev }
    | none => s1
  let s3 := if s2.lru_head = some i then { s2 with lru_head := (s2.slots i).lru_next } else s2
  let s4 := if s3.lru_tail = some i then { s3 with lru_tail := (s3.slots i).lru_prev } else s3
  psetSlot s4 i { s4.slots i with lru_prev := none, lru_next := none }

/-- lru_insert_front at the pointer level. -/
def plru_insert_front (s : PState) (i : Nat) : PState :=
  let s1 := psetSlot s i { s.slots i with lru_next := s.lru_head, lru_prev := none }
  let s2 := match s1.lru_head with
    | some h => psetSlot s1 h { s1.slots h with lru_prev := some i }
    | none => s1
  let s3 := { s2 with lru_head := some i }
  if s3.lru_tail = none then { s3 with lru_tail := some i } else s3

/-- lru_touch at the pointer level. -/
def plru_touch (s : PState) (i : Nat) : PState :=
  if s.lru_head = some i then s else plru_insert_front (plru_remove s i) i

/-- free_get at the pointer level: pop the head, advancing the head along
the hash_next field of the popped slot. -/
def pfree_get (s : PState) : Option Nat × PState :=
  match s.free_head with
  | none => (none, s)
  | some i => (some i, { s with free_head := (s.slots i).hash_next })

/-- free_insert at the pointer level. -/
def pfree_insert (s : PState) (i : Nat) : PState :=
  let s1 := psetSlot s i { s.slots i with valid := false, hash_next := s.free_head }
  { s1 with free_head := some i }

/-- The chain walk of hash_lookup, fuel bounded. -/
def phash_walk (s : PState) (pdrv sector : Nat) : Option Nat → Nat → Option Nat
  | _, 0 => none
  | none, _ => none
  | some i, fuel + 1 =>
      let e := s.slots i
      if e.valid && (e.sector == sector) && (e.pdrv == pdrv) then some i
      else phash_walk s pdrv sector e.hash_next fuel

/-- hash_lookup at the pointer level. -/
def phash_lookup (s : PState) (pdrv sector : Nat) : Option Nat :=
  phash_walk s pdrv sector (s.hash_table (hash_key pdrv sector)) (2 * CACHE_SIZE)

/-- hash_insert at the pointer level. -/
def phash_insert (s : PState) (i : Nat) : PState :=
  let h := hash_key (s.slots i).pdrv (s.slots i).sector
  let s1 := psetSlot s i { s.slots i with hash_next := s.hash_table h }
  { s1 with hash_table := fun b => if b = h then some i else s1.hash_table b }

/-- The interior walk of hash_remove: the link under examination is the
hash_next field of slot j.  On a hit the C writes *pp = e->hash_next and
then e->hash_next = NULL. -/
def phash_remove_walk (s : PState) (i : Nat) : Nat → Nat → PState
  | _, 0 => s
  | j, fuel + 1 =>
      match (s.slots j).hash_next with
      | none => s
      | some k =>
          if k = i then
            let s1 := psetSlot s j { s.slots j with hash_next := (s.slots i).hash_next }
            psetSlot s1 i { s1.slots i with hash_next := none }
          else phash_remove_walk s i k fuel

/-- hash_remove at the pointer level: the first link examined is the
bucket head itself. -/
def phash_remove (s : PState) (i : Nat) : PState :=
  let h := hash_key (s.slots i).pdrv (s.slots i).sector
  match s.hash_table h with
  | none => s
  | some j =>
      if j = i then
        let s1 := { s with hash_table := fun b =>
          if b = h then (s.slots i).hash_next else s.hash_table b }
        psetSlot s1 i { s1.slots i with hash_next := none }
      else phash_remove_walk s i j (2 * CACHE_SIZE)

/-- Result record shared by the pointer-level operations. -/
structure PEvictResult where
  slot : Option Nat
  st : PState
  err : Nat
  log : List DevEvent

/-- evict_entry at the pointer level. -/
def pevict_entry (dev : Device) (s : PState) : PEvictResult :=
  match s.lru_tail with
  | none => { slot := none, st := s, err := RES_PARERR, log := [] }
  | some i =>
    let e := s.slots i
    if e.valid && e.dirty then
      let r := dev.write e.pdrv e.sector e.data
      if r ≠ RES_OK then
        { slot := none, st := s, err := r
          log := [DevEvent.writeEv e.pdrv e.sector e.data] }
      else
        let s1 := plru_remove (phash_remove s i) i
        { slot := some i
          st := psetSlot s1 i { s1.slots i with valid := false, dirty := false }
          err := r
          log := [DevEvent.writeEv e.pdrv e.sector e.data] }
    else
      let s1 := plru_remove (phash_remove s i) i
      { slot := some i
        st := psetSlot s1 i { s1.slots i with valid := false, dirty := false }
        err := RES_OK
        log := [] }

/-- Result of the pointer-level read. -/
structure PReadResult where
  st : PState
  code : Nat
  out : Option Nat
  log : List DevEvent

/-- The miss tail of the pointer-level read. -/
def pread_miss_load (dev : Device) (s : PState) (pdrv sector i : Nat)
    (has_out : Bool) : PReadResult :=
  let rd := dev.read pdrv sector
  if rd.1 ≠ RES_OK then
    { st := s, code := rd.1, out := none, log := [DevEvent.readEv pdrv sector] }
  else
    let s1 := psetSlot s i
      { s.slots i with sector := sector, pdrv := pdrv, dirty := false
                       valid := true, data := rd.2 }
    { st := plru_insert_front (phash_insert s1 i) i
      code := RES_OK
      out := if has_out then some rd.2 else none
      log := [DevEvent.readEv pdrv sector] }

/-- block_cache_read_block at the pointer level. -/
def pblock_cache_read_block (dev : Device) (s : PState) (pdrv sector : Nat)
    (has_out : Bool) : PReadResult :=
  match phash_lookup s pdrv sector with
  | some i =>
      let s1 := plru_touch s i
      { st := s1, code := RES_OK
        out := if has_out then some (s1.slots i).data else none, log := [] }
  | none =>
      match pfree_get s with
      | (some i, s1) => pread_miss_load dev s1 pdrv sector i has_out
      | (none, s1) =>
          let ev := pevict_entry dev s1
          match ev.slot with
          | none => { st := ev.st, code := ev.err, out := none, log := ev.log }
          | some i =>
              let r := pread_miss_load dev ev.st pdrv sector i has_out
              { st := r.st, code := r.code, out := r.out, log := ev.log ++ r.log }

/-- Result of the pointer-level write and flush. -/
structure PWriteResult where
  st : PState
  code : Nat
  log : List DevEvent

/-- The miss tail of the pointer-level write. -/
def pwrite_miss_store (s : PState) (pdrv sector i data_in : Nat) : PState :=
  let s1 := psetSlot s i
    { s.slots i with sector := sector, pdrv := pdrv, dirty := true
                     valid := true, data := data_in }
  let s2 := { s1 with dirty_blocks := true }
  plru_insert_front (phash_insert s2 i) i

/-- block_cache_write_block at the pointer level. -/
def pblock_cache_write_block (dev : Device) (s : PState)
    (pdrv sector data_in : Nat) : PWriteResult :=
  match phash_lookup s pdrv sector with
  | some i =>
      let s1 := psetSlot s i { s.slots i with data := data_in, dirty := true }
      let s2 := { s1 with dirty_blocks := true }
      { st := plru_touch s2 i, code := RES_OK, log := [] }
  | none =>
      match pfree_get s with
      | (some i, s1) =>
          { st := pwrite_miss_store s1 pdrv sector i data_in
            code := RES_OK, log := [] }
      | (none, s1) =>
          let ev := pevict_entry dev s1
          match ev.slot with
          | none => { st := ev.st, code := ev.err, log := ev.log }
          | some i =>
              { st := pwrite_miss_store ev.st pdrv sector i data_in
                code := RES_OK, log := ev.log }

/-- The invalidate_all step of the pointer-level flush loop. -/
def pinvalidate_if (ia : Bool) (s : PState) (i : Nat) : PState :=
  if ia then psetSlot s i { s.slots i with valid := false } else s

/-- The for loop of block_cache_flush at the pointer level (the loop only
touches the slot array and performs device writes; it follows no links). -/
def pflush_loop (dev : Device) (fa ia : Bool) :
    Nat → Nat → PState → PState × Option Nat × List DevEvent
  | _, 0, s => (s, none, [])
  | i, fuel + 1, s =>
      let e := s.slots i
      if e.valid && e.dirty then
        let r := dev.write e.pdrv e.sector e.data
        if r ≠ RES_OK then
          (s, some r, [DevEvent.writeEv e.pdrv e.sector e.data])
        else
          let s1 := psetSlot s i { e with dirty := false }
          if fa = false then
            (s1, some RES_OK, [DevEvent.writeEv e.pdrv e.sector e.data])
          else
            let s2 := pinvalidate_if ia s1 i
            let rest := pflush_loop dev fa ia (i + 1) fuel s2
            (rest.1, rest.2.1, DevEvent.writeEv e.pdrv e.sector e.data :: rest.2.2)
      else
        let s2 := pinvalidate_if ia s i
        pflush_loop dev fa ia (i + 1) fuel s2

/-- block_cache_flush at the pointer level. -/
def pblock_cache_flush (dev : Device) (fa ia : Bool) (s : PState) : PWriteResult :=
  if s.dirty_blocks = false then { st := s, code := RES_OK, log := [] }
  else
    let r := pflush_loop dev fa ia 0 CACHE_SIZE s
    match r.2.1 with
    | some code => { st := r.1, code := code, log := r.2.2 }
    | none => { st := { r.1 with dirty_blocks := false }, code := RES_OK, log := r.2.2 }

/-- The free list population loop of block_cache_init at the pointer
level. -/
def pinit_free_loop : Nat → Nat → PState → PState
  | _, 0, s => s
  | i, n + 1, s =>
      let s1 := if (s.slots i).valid = false then pfree_insert s i else s
      pinit_free_loop (i + 1) n s1

/-- block_cache_init at the pointer level: memset the pool (zeroing all
link fields) and the hash table, empty the LRU list, keep s_dirty_blocks
and, exactly as the C does, keep the stale s_free_head, then push every
invalid slot on the free list. -/
def pblock_cache_init (s : PState) : PState :=
  let s1 : PState :=
    { slots := fun _ => pzeroEntry
      hash_table := fun _ => none
      dirty_blocks := s.dirty_blocks
      lru_head := none
      lru_tail := none
      free_head := s.free_head }
  pinit_free_loop 0 CACHE_SIZE s1

/-- The public operations of the cache including init, at the pointer
level. -/
inductive POp where
  | initOp
  | rd (pdrv sector : Nat) (has_out : Bool)
  | wr (pdrv sector data_in : Nat)
  | fl (fa ia : Bool)

/-- Apply one operation to the pointer-level state. -/
def papplyOp (dev : Device) (op : POp) (s : PState) : PState :=
  match op with
  | POp.initOp => pblock_cache_init s
  | POp.rd p sec b => (pblock_cache_read_block dev s p sec b).st
  | POp.wr p sec d => (pblock_cache_write_block dev s p sec d).st
  | POp.fl fa ia => (pblock_cache_flush dev fa ia s).st

/-- Run a list of operations under one device behaviour. -/
def prunOps (dev : Device) : List POp → PState → PState
  | [], s => s
  | op :: rest, s => prunOps dev rest (papplyOp dev op s)

/-- States reachable from program start by any sequence of init, read,
write and flush operations under arbitrary device behaviour. -/
inductive PReachable : PState → Prop
  | boot : PReachable pbootState
  | step (dev : Device) (op : POp) {s : PState} :
      PReachable s → PReachable (papplyOp dev op s)

/-! Basic lemmas about the list-model primitives. -/

theorem lru_touch_slots (s : CacheState) (i : Nat) :
    (lru_touch s i).slots = s.slots := by
  unfold lru_touch lru_insert_front lru_remove
  split <;> rfl

theorem lru_touch_hash_table (s : CacheState) (i : Nat) :
    (lru_touch s i).hash_table = s.hash_table := by
  unfold lru_touch lru_insert_front lru_remove
  split <;> rfl

theorem lru_touch_free (s : CacheState) (i : Nat) :
    (lru_touch s i).free = s.free := by
  unfold lru_touch lru_insert_front lru_remove
  split <;> rfl

theorem lru_touch_dirty_blocks (s : CacheState) (i : Nat) :
    (lru_touch s i).dirty_blocks = s.dirty_blocks := by
  unfold lru_touch lru_insert_front lru_remove
  split <;> rfl

theorem free_get_nil (s : CacheState) (h : s.free = []) :
    free_get s = (none, s) := by
  unfold free_get
  rw [h]

theorem find?_congr {α : Type} (l : List α) (p q : α → Bool)
    (h : ∀ a, a ∈ l → p a = q a) : l.find? p = l.find? q := by
  induction l with
  | nil => rfl
  | cons x xs ih =>
      have hx := h x (List.mem_cons_self x xs)
      by_cases hp : p x = true
      · rw [List.find?_cons_of_pos _ hp, List.find?_cons_of_pos _ (hx ▸ hp)]
      · have hq : ¬ q x = true := fun hc => hp (hx ▸ hc)
        rw [List.find?_cons_of_neg _ hp, List.find?_cons_of_neg _ hq]
        exact ih (fun a ha => h a (List.mem_cons_of_mem x ha))

/-- On a failed eviction the error code handed to the caller is never
RES_OK. -/
theorem evict_entry_fail_err (dev : Device) (s : CacheState)
    (h : (evict_entry dev s).slot = none) : (evict_entry dev s).err ≠ RES_OK := by
  unfold evict_entry at h ⊢
  rcases hl : s.lru.getLast? with _ | i <;> rw [hl] at h
  · intro hc
    dsimp only at hc ⊢
    exact absurd hc (by decide)
  · dsimp only at h ⊢
    by_cases hvd : ((s.slots i).valid && (s.slots i).dirty) = true
    · rw [if_pos hvd] at h ⊢
      by_cases hw : dev.write (s.slots i).pdrv (s.slots i).sector (s.slots i).data ≠ RES_OK
      · rw [if_pos hw]
        exact hw
      · rw [if_neg hw] at h
        exact absurd h (by simp)
    · rw [if_neg hvd] at h
      exact absurd h (by simp)

/-- Claim C2: if the device write issued during eviction fails, the evicted
candidate keeps dirty and valid set, stays in its hash chain and LRU
position (the whole state is returned unchanged), and the read or write
operation that triggered the eviction returns that device error. -/
theorem c2_evict_write_failure (dev : Device) (s : CacheState)
    (p sec d t r : Nat) (b : Bool)
    (hmiss : hash_lookup s p sec = none)
    (hfree : s.free = [])
    (htail : s.lru.getLast? = some t)
    (hvalid : (s.slots t).valid = true)
    (hdirty : (s.slots t).dirty = true)
    (hw : dev.write (s.slots t).pdrv (s.slots t).sector (s.slots t).data = r)
    (hr : r ≠ RES_OK) :
    block_cache_write_block dev s p sec d =
      { st := s, code := r
        log := [DevEvent.writeEv (s.slots t).pdrv (s.slots t).sector (s.slots t).data] }
    ∧ block_cache_read_block dev s p sec b =
      { st := s, code := r, out := none
        log := [DevEvent.writeEv (s.slots t).pdrv (s.slots t).sector (s.slots t).data] } := by
  have hev : evict_entry dev s =
      { slot := none, st := s, err := r
        log := [DevEvent.writeEv (s.slots t).pdrv (s.slots t).sector (s.slots t).data] } := by
    unfold evict_entry
    rw [htail]
    simp only [hvalid, hdirty, Bool.and_self, if_true, hw, if_pos hr]
  constructor
  · unfold block_cache_write_block
    rw [hmiss, free_get_nil s hfree]
    dsimp only
    rw [hev]
  · unfold block_cache_read_block
    rw [hmiss, free_get_nil s hfree]
    dsimp only
    rw [hev]

/-- A device whose single-sector reads always fail with DRESULT 1
(RES_ERROR) and whose writes succeed. -/
def failReadDevice : Device :=
  { read := fun _ _ => (1, 0), write := fun _ _ _ => RES_OK }

/-- Claim C3, evaluated at the failing input: on a read miss whose device
read fails, block_cache_read_block returns the failure and inserts nothing
into the hash index or LRU list, but the slot obtained for the miss was
popped off the free list and is never pushed back: afterwards it is
invalid, on no hash chain, not in the LRU list and not on the free list
either, so it is no longer accounted for as free and the usable pool has
shrunk by one slot. -/
theorem c3_read_miss_failure_leaks_slot :
    (block_cache_read_block failReadDevice initState 0 0 true).code = 1 ∧
    (block_cache_read_block failReadDevice initState 0 0 true).out = none ∧
    initState.free.length = 128 ∧ 127 ∈ initState.free ∧
    (block_cache_read_block failReadDevice initState 0 0 true).st.free.length = 127 ∧
    127 ∉ (block_cache_read_block failReadDevice initState 0 0 true).st.free ∧
    127 ∉ (block_cache_read_block failReadDevice initState 0 0 true).st.lru ∧
    (∀ b, b < HASH_SIZE →
      127 ∉ (block_cache_read_block failReadDevice initState 0 0 true).st.hash_table b) ∧
    ((block_cache_read_block failReadDevice initState 0 0 true).st.slots 127).valid = false := by
  set_option maxRecDepth 40000 in decide

/-- A state whose slot 0 is valid for key (0, 5) but sits in no bucket
chain of the hash index. -/
def c9State : CacheState :=
  { slots := fun _ => { zeroEntry with sector := 5, valid := true }
    hash_table := fun _ => []
    dirty_blocks := true
    lru := [0]
    free := [] }

/-- Claim C9 counterexample: hash_remove invoked on a slot that is not
present in its computed bucket chain returns normally and leaves the hash
index, and the whole cache state, unchanged.  The C function contains no
assert and no unreachable marker: the not-found case is a silent no-op,
not a fatal failure. -/
theorem c9_counterexample :
    0 ∉ c9State.hash_table (bucketOf c9State 0) ∧ hash_remove c9State 0 = c9State := by
  constructor
  · simp [c9State]
  · unfold hash_remove
    have h : (fun b => if b = bucketOf c9State 0 then
        (c9State.hash_table (bucketOf c9State 0)).erase 0
        else c9State.hash_table b) = c9State.hash_table := by
      funext b
      by_cases hb : b = bucketOf c9State 0
      · rw [if_pos hb, hb]
        rfl
      · rw [if_neg hb]
    rw [h]

/-- Claim C9 amended: when hash_remove is invoked on a slot that is not
present in its computed bucket chain, the chain walk falls off the end and
the function returns silently with the hash index unchanged (a no-op); no
assert-strength failure occurs. -/
theorem c9_hash_remove_absent_noop (s : CacheState) (i : Nat)
    (h : i ∉ s.hash_table (bucketOf s i)) :
    hash_remove s i = s := by
  unfold hash_remove
  have he : (s.hash_table (bucketOf s i)).erase i = s.hash_table (bucketOf s i) :=
    List.erase_of_not_mem h
  have hf : (fun b => if b = bucketOf s i then (s.hash_table (bucketOf s i)).erase i
      else s.hash_table b) = s.hash_table := by
    funext b
    by_cases hb : b = bucketOf s i
    · rw [if_pos hb, he, hb]
    · rw [if_neg hb]
  rw [hf]

/-- A state whose slot 3 is valid for key (0, 7) with an empty hash
index, used as the witness input for the amended C9 theorem. -/
def c9WitnessState : CacheState :=
  { slots := fun _ => { zeroEntry with sector := 7, valid := true }
    hash_table := fun _ => []
    dirty_blocks := false
    lru := []
    free := [] }

/-- Witness: the amended C9 theorem applied at a concrete state whose slot
3 is absent from its bucket chain. -/
theorem c9_amended_witness : hash_remove c9WitnessState 3 = c9WitnessState :=
  c9_hash_remove_absent_noop c9WitnessState 3 (by simp [c9WitnessState])

/-- Lookup depends only on the hash table and on the valid, sector and
pdrv fields of the slots. -/
theorem hash_lookup_congr (s t : CacheState) (p sec : Nat)
    (hht : t.hash_table = s.hash_table)
    (hsl : ∀ j, (t.slots j).valid = (s.slots j).valid ∧
      (t.slots j).sector = (s.slots j).sector ∧ (t.slots j).pdrv = (s.slots j).pdrv) :
    hash_lookup t p sec = hash_lookup s p sec := by
  unfold hash_lookup
  rw [hht]
  refine find?_congr _ _ _ (fun a _ => ?_)
  obtain ⟨h1, h2, h3⟩ := hsl a
  unfold entry_matches
  rw [h1, h2, h3]

/-- After a write-miss store of key (pdrv, sector) into slot i, looking up
that key finds slot i, and slot i holds exactly the written data. -/
theorem write_miss_store_lookup (s : CacheState) (p sec i d : Nat) :
    hash_lookup (write_miss_store s p sec i d) p sec = some i ∧
    ((write_miss_store s p sec i d).slots i).data = d := by
  constructor
  · unfold write_miss_store hash_lookup lru_insert_front hash_insert setSlot bucketOf
    simp [entry_matches]
  · unfold write_miss_store lru_insert_front hash_insert setSlot
    simp

/-- A successful block_cache_write_block leaves the written key cached:
the lookup finds a slot holding exactly the written data. -/
theorem write_block_success_lookup (dev : Device) (s : CacheState) (p sec d : Nat)
    (hw : (block_cache_write_block dev s p sec d).code = RES_OK) :
    ∃ i, hash_lookup (block_cache_write_block dev s p sec d).st p sec = some i ∧
      ((block_cache_write_block dev s p sec d).st.slots i).data = d := by
  unfold block_cache_write_block at hw ⊢
  rcases hl : hash_lookup s p sec with _ | i
  · rw [hl] at hw
    dsimp only at hw ⊢
    rcases hfr : s.free with _ | ⟨i, rest⟩
    · rw [free_get_nil s hfr] at hw ⊢
      dsimp only at hw ⊢
      rcases hsl : (evict_entry dev s).slot with _ | i
      · rw [hsl] at hw
        dsimp only at hw
        exact absurd hw (evict_entry_fail_err dev s hsl)
      · dsimp only
        exact ⟨i, write_miss_store_lookup _ p sec i d⟩
    · rw [show free_get s = (some i, { s with free := rest }) from by
        unfold free_get; rw [hfr]] at hw ⊢
      dsimp only
      exact ⟨i, write_miss_store_lookup _ p sec i d⟩
  · refine ⟨i, ?_, ?_⟩
    · dsimp only
      rw [hash_lookup_congr (s := s) _ p sec (by rw [lru_touch_hash_table]; rfl)
        (fun j => by
          rw [lru_touch_slots]
          dsimp only [setSlot]
          by_cases hj : j = i
          · subst hj
            simp
          · simp [hj])]
      exact hl
    · dsimp only
      rw [lru_touch_slots]
      dsimp only [setSlot]
      simp

/-- Claim C6: a successful write_block of (drive, block, buf), followed
immediately by a read_block of the same (drive, block), succeeds, copies
exactly the written data out, and performs no device I/O during the read
(the read device is arbitrary and unused). -/
theorem c6_write_then_read (dev dev2 : Device) (s : CacheState) (p sec d : Nat)
    (hw : (block_cache_write_block dev s p sec d).code = RES_OK) :
    (block_cache_read_block dev2 (block_cache_write_block dev s p sec d).st p sec true).code
        = RES_OK ∧
    (block_cache_read_block dev2 (block_cache_write_block dev s p sec d).st p sec true).out
        = some d ∧
    (block_cache_read_block dev2 (block_cache_write_block dev s p sec d).st p sec true).log
        = [] := by
  obtain ⟨i, hli, hdi⟩ := write_block_success_lookup dev s p sec d hw
  unfold block_cache_read_block
  rw [hli]
  dsimp only
  refine ⟨rfl, ?_, rfl⟩
  rw [show ((lru_touch (block_cache_write_block dev s p sec d).st i).slots i).data
      = ((block_cache_write_block dev s p sec d).st.slots i).data from by
    rw [lru_touch_slots]]
  rw [hdi]
  rfl

/-- A full cache (free list empty) whose single LRU entry, slot 0, is
valid and dirty for key (0, 5) with payload 7. -/
def c2WitnessState : CacheState :=
  { slots := fun _ => { sector := 5, pdrv := 0, dirty := true, valid := true, data := 7 }
    hash_table := fun b => if b = hash_key 0 5 then [0] else []
    dirty_blocks := true
    lru := [0]
    free := [] }

/-- A device whose writes always fail with DRESULT 2 (RES_WRPRT). -/
def failWriteDevice : Device :=
  { read := fun _ _ => (RES_OK, 0), write := fun _ _ _ => 2 }

/-- Witness: C2 applied at a concrete state and failing device. -/
theorem c2_witness :
    block_cache_write_block failWriteDevice c2WitnessState 0 99 1 =
      { st := c2WitnessState, code := 2, log := [DevEvent.writeEv 0 5 7] } ∧
    block_cache_read_block failWriteDevice c2WitnessState 0 99 true =
      { st := c2WitnessState, code := 2, out := none
        log := [DevEvent.writeEv 0 5 7] } :=
  c2_evict_write_failure failWriteDevice c2WitnessState 0 99 1 0 2 true
    (by decide) rfl rfl rfl rfl rfl (by decide)

/-- Witness: C6 applied to a write into the freshly initialised cache. -/
theorem c6_witness :
    (block_cache_read_block okDevice
        (block_cache_write_block okDevice initState 0 3 42).st 0 3 true).code = RES_OK ∧
    (block_cache_read_block okDevice
        (block_cache_write_block okDevice initState 0 3 42).st 0 3 true).out = some 42 ∧
    (block_cache_read_block okDevice
        (block_cache_write_block okDevice initState 0 3 42).st 0 3 true).log = [] :=
  c6_write_then_read okDevice okDevice initState 0 3 42
    (by set_option maxRecDepth 40000 in decide)

/-! Lemmas about the flush loop. -/

theorem invalidate_if_globals (ia : Bool) (s : CacheState) (i : Nat) :
    (invalidate_if ia s i).hash_table = s.hash_table ∧
    (invalidate_if ia s i).lru = s.lru ∧
    (invalidate_if ia s i).free = s.free ∧
    (invalidate_if ia s i).dirty_blocks = s.dirty_blocks := by
  unfold invalidate_if
  split <;> exact ⟨rfl, rfl, rfl, rfl⟩

theorem invalidate_if_slots_ne (ia : Bool) (s : CacheState) (i j : Nat) (hj : j ≠ i) :
    (invalidate_if ia s i).slots j = s.slots j := by
  unfold invalidate_if setSlot
  split
  · simp [hj]
  · rfl

theorem setSlot_slots_ne (s : CacheState) (i j : Nat) (e : CacheEntry) (hj : j ≠ i) :
    (setSlot s i e).slots j = s.slots j := by
  unfold setSlot
  simp [hj]

theorem setSlot_slots_self (s : CacheState) (i : Nat) (e : CacheEntry) :
    (setSlot s i e).slots i = e := by
  unfold setSlot
  simp

/-- The flush loop never touches the hash index, the LRU list, the free
list or the global dirty flag. -/
theorem flush_loop_globals (dev : Device) (fa ia : Bool) :
    ∀ fuel i s,
      (flush_loop dev fa ia i fuel s).1.hash_table = s.hash_table ∧
      (flush_loop dev fa ia i fuel s).1.lru = s.lru ∧
      (flush_loop dev fa ia i fuel s).1.free = s.free ∧
      (flush_loop dev fa ia i fuel s).1.dirty_blocks = s.dirty_blocks := by
  intro fuel
  induction fuel with
  | zero => exact fun i s => ⟨rfl, rfl, rfl, rfl⟩
  | succ n ih =>
      intro i s
      unfold flush_loop
      dsimp only
      by_cases hvd : ((s.slots i).valid && (s.slots i).dirty) = true
      · rw [if_pos hvd]
        by_cases hw : dev.write (s.slots i).pdrv (s.slots i).sector (s.slots i).data ≠ RES_OK
        · rw [if_pos hw]
          exact ⟨rfl, rfl, rfl, rfl⟩
        · rw [if_neg hw]
          by_cases hfa : fa = false
          · rw [if_pos hfa]
            exact ⟨rfl, rfl, rfl, rfl⟩
          · rw [if_neg hfa]
            dsimp only
            obtain ⟨h1, h2, h3, h4⟩ := ih (i + 1)
              (invalidate_if ia (setSlot s i { s.slots i with dirty := false }) i)
            obtain ⟨g1, g2, g3, g4⟩ := invalidate_if_globals ia
              (setSlot s i { s.slots i with dirty := false }) i
            exact ⟨h1.trans g1, h2.trans g2, h3.trans g3, h4.trans g4⟩
      · rw [if_neg hvd]
        obtain ⟨h1, h2, h3, h4⟩ := ih (i + 1) (invalidate_if ia s i)
        obtain ⟨g1, g2, g3, g4⟩ := invalidate_if_globals ia s i
        exact ⟨h1.trans g1, h2.trans g2, h3.trans g3, h4.trans g4⟩

theorem invalidate_if_slot_self (ia : Bool) (s : CacheState) (i : Nat) :
    (invalidate_if ia s i).slots i =
      if ia then { s.slots i with valid := false } else s.slots i := by
  unfold invalidate_if
  by_cases h : ia = true
  · rw [if_pos h, if_pos h, setSlot_slots_self]
  · rw [if_neg h, if_neg h]

/-- Frame of the flush loop on the slot array: keys and payloads are
never changed, valid and dirty bits are only ever cleared, a slot that
keeps its dirty bit also keeps its valid bit, and slots outside the
scanned range are untouched. -/
theorem flush_loop_slots (dev : Device) (fa ia : Bool) :
    ∀ fuel i s j,
      ((flush_loop dev fa ia i fuel s).1.slots j).sector = (s.slots j).sector ∧
      ((flush_loop dev fa ia i fuel s).1.slots j).pdrv = (s.slots j).pdrv ∧
      ((flush_loop dev fa ia i fuel s).1.slots j).data = (s.slots j).data ∧
      (((flush_loop dev fa ia i fuel s).1.slots j).valid = true →
        (s.slots j).valid = true) ∧
      (((flush_loop dev fa ia i fuel s).1.slots j).dirty = true →
        (s.slots j).dirty = true ∧
        ((flush_loop dev fa ia i fuel s).1.slots j).valid = (s.slots j).valid) ∧
      ((j < i ∨ i + fuel ≤ j) → (flush_loop dev fa ia i fuel s).1.slots j = s.slots j) := by
  intro fuel
  induction fuel with
  | zero =>
      intro i s j
      exact ⟨rfl, rfl, rfl, fun h => h, fun h => ⟨h, rfl⟩, fun _ => rfl⟩
  | succ n ih =>
      intro i s j
      unfold flush_loop
      dsimp only
      by_cases hvd : ((s.slots i).valid && (s.slots i).dirty) = true
      · rw [if_pos hvd]
        by_cases hw : dev.write (s.slots i).pdrv (s.slots i).sector (s.slots i).data ≠ RES_OK
        · rw [if_pos hw]
          exact ⟨rfl, rfl, rfl, fun h => h, fun h => ⟨h, rfl⟩, fun _ => rfl⟩
        · rw [if_neg hw]
          by_cases hfa : fa = false
          · rw [if_pos hfa]
            dsimp only
            by_cases hj : j = i
            · subst hj
              rw [setSlot_slots_self]
              exact ⟨rfl, rfl, rfl, fun h => h, fun h => absurd h (by simp),
                fun hr => absurd hr (by omega)⟩
            · rw [setSlot_slots_ne s i j _ hj]
              exact ⟨rfl, rfl, rfl, fun h => h, fun h => ⟨h, rfl⟩, fun _ => rfl⟩
          · rw [if_neg hfa]
            dsimp only
            obtain ⟨I1, I2, I3, I4, I5, I6⟩ := ih (i + 1)
              (invalidate_if ia (setSlot s i { s.slots i with dirty := false }) i) j
            by_cases hj : j = i
            · subst hj
              have hst := I6 (Or.inl (by omega))
              have hs2 : (invalidate_if ia (setSlot s j { s.slots j with dirty := false }) j).slots j =
                  if ia then { { s.slots j with dirty := false } with valid := false }
                  else { s.slots j with dirty := false } := by
                rw [invalidate_if_slot_self, setSlot_slots_self]
              rw [hst, hs2]
              by_cases hia : ia = true
              · rw [if_pos hia]
                exact ⟨rfl, rfl, rfl, fun h => absurd h (by simp),
                  fun h => absurd h (by simp), fun hr => absurd hr (by omega)⟩
              · rw [if_neg hia]
                exact ⟨rfl, rfl, rfl, fun h => h, fun h => absurd h (by simp),
                  fun hr => absurd hr (by omega)⟩
            · have hs2 : (invalidate_if ia (setSlot s i { s.slots i with dirty := false }) i).slots j
                  = s.slots j := by
                rw [invalidate_if_slots_ne _ _ _ _ hj, setSlot_slots_ne s i j _ hj]
              rw [hs2] at I1 I2 I3 I4 I5 I6
              exact ⟨I1, I2, I3, I4, I5, fun hr => I6 (by omega)⟩
      · rw [if_neg hvd]
        obtain ⟨I1, I2, I3, I4, I5, I6⟩ := ih (i + 1) (invalidate_if ia s i) j
        by_cases hj : j = i
        · subst hj
          have hst := I6 (Or.inl (by omega))
          rw [hst, invalidate_if_slot_self]
          by_cases hia : ia = true
          · rw [if_pos hia]
            refine ⟨rfl, rfl, rfl, fun h => absurd h (by simp), fun h => ?_, 
              fun hr => absurd hr (by omega)⟩
            refine ⟨h, ?_⟩
            have hv : (s.slots j).valid = false := by
              rcases hv : (s.slots j).valid with _ | _
              · rfl
              · exact absurd (by rw [hv, h]; rfl : ((s.slots j).valid && (s.slots j).dirty) = true) hvd
            rw [hv]
          · rw [if_neg hia]
            exact ⟨rfl, rfl, rfl, fun h => h, fun h => ⟨h, rfl⟩,
              fun hr => absurd hr (by omega)⟩
        · have hs2 : (invalidate_if ia s i).slots j = s.slots j :=
            invalidate_if_slots_ne _ _ _ _ hj
          rw [hs2] at I1 I2 I3 I4 I5 I6
          exact ⟨I1, I2, I3, I4, I5, fun hr => I6 (by omega)⟩

/-- When no slot in the scanned range is valid and dirty, the flush loop
(without invalidation) is a complete no-op. -/
theorem flush_loop_no_dirty (dev : Device) (fa : Bool) :
    ∀ fuel i s,
      (∀ j, i ≤ j → j < i + fuel → ¬((s.slots j).valid && (s.slots j).dirty) = true) →
      flush_loop dev fa false i fuel s = (s, none, []) := by
  intro fuel
  induction fuel with
  | zero => intro i s _; rfl
  | succ n ih =>
      intro i s h
      unfold flush_loop
      dsimp only
      rw [if_neg (h i (le_refl i) (by omega))]
      rw [show invalidate_if false s i = s from rfl]
      exact ih (i + 1) s (fun j h1 h2 => h j (by omega) (by omega))

/-- The single-flush loop (flush_all = false) finds the first valid dirty
slot in pool order, writes it back, clears its dirty bit and returns
RES_OK immediately. -/
theorem flush_loop_first_dirty (dev : Device) :
    ∀ fuel i s i0, i ≤ i0 → i0 < i + fuel →
      (∀ j, i ≤ j → j < i0 → ¬((s.slots j).valid && (s.slots j).dirty) = true) →
      ((s.slots i0).valid && (s.slots i0).dirty) = true →
      dev.write (s.slots i0).pdrv (s.slots i0).sector (s.slots i0).data = RES_OK →
      flush_loop dev false false i fuel s =
        (setSlot s i0 { s.slots i0 with dirty := false }, some RES_OK,
         [DevEvent.writeEv (s.slots i0).pdrv (s.slots i0).sector (s.slots i0).data]) := by
  intro fuel
  induction fuel with
  | zero => intro i s i0 h1 h2 _ _ _; omega
  | succ n ih =>
      intro i s i0 h1 h2 hno hd hw
      unfold flush_loop
      dsimp only
      by_cases hii : i = i0
      · subst hii
        rw [if_pos hd, hw]
        rw [if_neg (by simp : ¬(RES_OK ≠ RES_OK))]
        rw [if_pos rfl]
      · have hne := hno i (le_refl i) (by omega)
        rw [if_neg hne]
        rw [show invalidate_if false s i = s from rfl]
        exact ih (i + 1) s i0 (by omega) (by omega)
          (fun j ha hb => hno j (by omega) hb) hd hw

/-- The device writes block_cache_flush performs on a full scan: one per
valid dirty slot, in pool order, carrying that slot's key and payload. -/
def dirtyWriteEvents (s : CacheState) : Nat → Nat → List DevEvent
  | _, 0 => []
  | i, fuel + 1 =>
      if ((s.slots i).valid && (s.slots i).dirty) = true then
        DevEvent.writeEv (s.slots i).pdrv (s.slots i).sector (s.slots i).data
          :: dirtyWriteEvents s (i + 1) fuel
      else dirtyWriteEvents s (i + 1) fuel

theorem dirtyWriteEvents_congr (s t : CacheState) :
    ∀ fuel i, (∀ j, i ≤ j → j < i + fuel → t.slots j = s.slots j) →
      dirtyWriteEvents t i fuel = dirtyWriteEvents s i fuel := by
  intro fuel
  induction fuel with
  | zero => intro i _; rfl
  | succ n ih =>
      intro i h
      unfold dirtyWriteEvents
      rw [h i (le_refl i) (by omega)]
      rw [ih (i + 1) (fun j ha hb => h j (by omega) (by omega))]

/-- With flush_all and invalidate_all both set and a device whose writes
all succeed, the flush loop runs to completion, writes back exactly the
valid dirty slots in pool order, and leaves every visited slot invalid. -/
theorem flush_loop_flush_all (dev : Device)
    (hdev : ∀ p sec d, dev.write p sec d = RES_OK) :
    ∀ fuel i s,
      (flush_loop dev true true i fuel s).2.1 = none ∧
      (flush_loop dev true true i fuel s).2.2 = dirtyWriteEvents s i fuel ∧
      (∀ j, i ≤ j → j < i + fuel →
        ((flush_loop dev true true i fuel s).1.slots j).valid = false) := by
  intro fuel
  induction fuel with
  | zero => intro i s; exact ⟨rfl, rfl, fun j h1 h2 => by omega⟩
  | succ n ih =>
      intro i s
      unfold flush_loop dirtyWriteEvents
      dsimp only
      by_cases hvd : ((s.slots i).valid && (s.slots i).dirty) = true
      · rw [if_pos hvd, hdev _ _ _]
        rw [if_neg (by simp : ¬(RES_OK ≠ RES_OK))]
        rw [if_neg (by simp : ¬((true : Bool) = false))]
        dsimp only
        obtain ⟨I1, I2, I3⟩ := ih (i + 1)
          (invalidate_if true (setSlot s i { s.slots i with dirty := false }) i)
        have hagree : ∀ j, i + 1 ≤ j → j < (i + 1) + n →
            (invalidate_if true (setSlot s i { s.slots i with dirty := false }) i).slots j
              = s.slots j := fun j ha _ => by
          rw [invalidate_if_slots_ne _ _ _ _ (by omega : j ≠ i),
            setSlot_slots_ne s i j _ (by omega : j ≠ i)]
        refine ⟨I1, ?_, ?_⟩
        · rw [I2, dirtyWriteEvents_congr s _ n (i + 1) hagree]
          rw [if_pos hvd]
        · intro j h1 h2
          by_cases hj : j = i
          · subst hj
            have hst := (flush_loop_slots dev true true n (j + 1)
              (invalidate_if true (setSlot s j { s.slots j with dirty := false }) j)
              j).2.2.2.2.2 (Or.inl (by omega))
            rw [hst, invalidate_if_slot_self]
            rw [if_pos rfl]
          · exact I3 j (by omega) (by omega)
      · rw [if_neg hvd]
        obtain ⟨I1, I2, I3⟩ := ih (i + 1) (invalidate_if true s i)
        have hagree : ∀ j, i + 1 ≤ j → j < (i + 1) + n →
            (invalidate_if true s i).slots j = s.slots j := fun j ha _ =>
          invalidate_if_slots_ne _ _ _ _ (by omega : j ≠ i)
        refine ⟨I1, ?_, ?_⟩
        · rw [I2, dirtyWriteEvents_congr s _ n (i + 1) hagree]
          rw [if_neg hvd]
        · intro j h1 h2
          by_cases hj : j = i
          · subst hj
            have hst := (flush_loop_slots dev true true n (j + 1)
              (invalidate_if true s j) j).2.2.2.2.2 (Or.inl (by omega))
            rw [hst, invalidate_if_slot_self]
            rw [if_pos rfl]
          · exact I3 j (by omega) (by omega)

/-- When the flush loop runs to completion, no slot in the scanned range
is still both valid and dirty. -/
theorem flush_loop_complete_clean (dev : Device) (fa ia : Bool) :
    ∀ fuel i s, (flush_loop dev fa ia i fuel s).2.1 = none →
      ∀ j, i ≤ j → j < i + fuel →
        ¬(((flush_loop dev fa ia i fuel s).1.slots j).valid = true ∧
          ((flush_loop dev fa ia i fuel s).1.slots j).dirty = true) := by
  intro fuel
  induction fuel with
  | zero => intro i s _ j h1 h2; omega
  | succ n ih =>
      intro i s hc j h1 h2
      unfold flush_loop at hc ⊢
      dsimp only at hc ⊢
      by_cases hvd : ((s.slots i).valid && (s.slots i).dirty) = true
      · rw [if_pos hvd] at hc ⊢
        by_cases hw : dev.write (s.slots i).pdrv (s.slots i).sector (s.slots i).data ≠ RES_OK
        · rw [if_pos hw] at hc
          exact absurd hc (by simp)
        · rw [if_neg hw] at hc ⊢
          by_cases hfa : fa = false
          · rw [if_pos hfa] at hc
            exact absurd hc (by simp)
          · rw [if_neg hfa] at hc ⊢
            dsimp only at hc ⊢
            by_cases hj : j = i
            · subst hj
              have hst := (flush_loop_slots dev fa ia n (j + 1)
                (invalidate_if ia (setSlot s j { s.slots j with dirty := false }) j)
                j).2.2.2.2.2 (Or.inl (by omega))
              rw [hst, invalidate_if_slot_self, setSlot_slots_self]
              by_cases hia : ia = true
              · rw [if_pos hia]
                rintro ⟨_, hd⟩
                exact absurd hd (by simp)
              · rw [if_neg hia]
                rintro ⟨_, hd⟩
                exact absurd hd (by simp)
            · exact ih (i + 1) _ hc j (by omega) (by omega)
      · rw [if_neg hvd] at hc ⊢
        by_cases hj : j = i
        · subst hj
          have hst := (flush_loop_slots dev fa ia n (j + 1)
            (invalidate_if ia s j) j).2.2.2.2.2 (Or.inl (by omega))
          rw [hst, invalidate_if_slot_self]
          by_cases hia : ia = true
          · rw [if_pos hia]
            rintro ⟨hv, _⟩
            exact absurd hv (by simp)
          · rw [if_neg hia]
            rintro ⟨hv, hd⟩
            exact absurd (show ((s.slots j).valid && (s.slots j).dirty) = true by
              rw [hv, hd]; rfl) hvd
        · exact ih (i + 1) _ hc j (by omega) (by omega)

theorem hash_key_lt (p sec : Nat) : hash_key p sec < HASH_SIZE := by
  unfold hash_key
  exact Nat.mod_lt _ (by unfold HASH_SIZE; omega)

/-- Claim C7: on a cache state with exactly one dirty valid slot, the
global dirty flag set (as in every reachable such state, see the C10
invariant) and a succeeding device, flush(false,false) performs exactly
one device write, for that slot, and clears its dirty bit; calling
flush(false,false) again on the result performs zero device writes and
returns success. -/
theorem c7_incremental_flush (dev : Device) (s : CacheState) (i0 : Nat)
    (hflag : s.dirty_blocks = true)
    (hi0 : i0 < CACHE_SIZE)
    (hv : (s.slots i0).valid = true) (hd : (s.slots i0).dirty = true)
    (huniq : ∀ j, j < CACHE_SIZE → ((s.slots j).valid && (s.slots j).dirty) = true → j = i0)
    (hdev : ∀ p sec d, dev.write p sec d = RES_OK) :
    (block_cache_flush dev false false s).code = RES_OK ∧
    (block_cache_flush dev false false s).log =
      [DevEvent.writeEv (s.slots i0).pdrv (s.slots i0).sector (s.slots i0).data] ∧
    ((block_cache_flush dev false false s).st.slots i0).dirty = false ∧
    (block_cache_flush dev false false (block_cache_flush dev false false s).st).code
      = RES_OK ∧
    (block_cache_flush dev false false (block_cache_flush dev false false s).st).log
      = [] := by
  have hvd : ((s.slots i0).valid && (s.slots i0).dirty) = true := by rw [hv, hd]; rfl
  have hflush1 := flush_loop_first_dirty dev CACHE_SIZE 0 s i0 (by omega) (by omega)
    (fun j _ hj2 hcon => absurd (huniq j (by omega) hcon) (by omega)) hvd (hdev _ _ _)
  have hbf : block_cache_flush dev false false s =
      { st := setSlot s i0 { s.slots i0 with dirty := false }, code := RES_OK
        log := [DevEvent.writeEv (s.slots i0).pdrv (s.slots i0).sector (s.slots i0).data] } := by
    unfold block_cache_flush
    rw [if_neg (by rw [hflag]; simp)]
    dsimp only
    rw [hflush1]
  have hnone : ∀ j, 0 ≤ j → j < 0 + CACHE_SIZE →
      ¬(((setSlot s i0 { s.slots i0 with dirty := false }).slots j).valid &&
        ((setSlot s i0 { s.slots i0 with dirty := false }).slots j).dirty) = true := by
    intro j _ hj hcon
    by_cases hji : j = i0
    · subst hji
      rw [setSlot_slots_self] at hcon
      simp at hcon
    · rw [setSlot_slots_ne s i0 j _ hji] at hcon
      exact absurd (huniq j (by omega) hcon) hji
  have hflush2 := flush_loop_no_dirty dev false CACHE_SIZE 0 _ hnone
  have hbf2 : block_cache_flush dev false false
        (setSlot s i0 { s.slots i0 with dirty := false }) =
      { st := { setSlot s i0 { s.slots i0 with dirty := false } with dirty_blocks := false }
        code := RES_OK, log := [] } := by
    unfold block_cache_flush
    rw [if_neg (by simp [setSlot, hflag])]
    dsimp only
    rw [hflush2]
  rw [hbf]
  exact ⟨rfl, rfl, by rw [setSlot_slots_self], by rw [hbf2], by rw [hbf2]⟩

/-- The state after writing key (0,5) into the fresh cache and flushing it
completely without invalidation: slot 127 is valid, clean, and the global
dirty flag is clear. -/
def c5State : CacheState :=
  (block_cache_flush okDevice true false
    (block_cache_write_block okDevice initState 0 5 42).st).st

/-- Claim C5 counterexample: on the reachable state c5State the global
dirty flag is clear while slot 127 is still a valid cached copy of key
(0,5); flush(true,true) then short-circuits: it performs no device write,
invalidates nothing, and the previously cached key still hits afterwards,
contradicting the claim that flush(true,true) invalidates every slot on
every cache state. -/
theorem c5_counterexample :
    ReachableSI c5State ∧
    c5State.dirty_blocks = false ∧
    (c5State.slots 127).valid = true ∧
    hash_lookup c5State 0 5 = some 127 ∧
    (block_cache_flush okDevice true true c5State).log = [] ∧
    ((block_cache_flush okDevice true true c5State).st.slots 127).valid = true ∧
    hash_lookup (block_cache_flush okDevice true true c5State).st 0 5 = some 127 := by
  constructor
  · exact ReachableSI.step okDevice (Op.fl true false)
      (ReachableSI.step okDevice (Op.wr 0 5 42) ReachableSI.base)
  · set_option maxRecDepth 40000 in decide

/-- Claim C5 amended: flush(true,true) with every device write succeeding,
on a state whose global dirty flag is set (the flag is set whenever any
slot is dirty in reachable states, and block_cache_flush scans at all only
when it is set), returns success, performs exactly one device write per
valid dirty slot in pool order, clears every dirty bit, marks every pool
slot invalid and clears the global flag, so every subsequent lookup of any
key misses.  When the global flag is clear instead, the call returns at
once and invalidates nothing (see the counterexample). -/
theorem c5_flush_all_invalidate (dev : Device) (s : CacheState)
    (hflag : s.dirty_blocks = true)
    (hdv : ∀ j, j < CACHE_SIZE → (s.slots j).dirty = true → (s.slots j).valid = true)
    (hchain : ∀ b, b < HASH_SIZE → ∀ i ∈ s.hash_table b, i < CACHE_SIZE)
    (hdev : ∀ p sec d, dev.write p sec d = RES_OK) :
    (block_cache_flush dev true true s).code = RES_OK ∧
    (block_cache_flush dev true true s).log = dirtyWriteEvents s 0 CACHE_SIZE ∧
    (∀ i, i < CACHE_SIZE →
      ((block_cache_flush dev true true s).st.slots i).valid = false ∧
      ((block_cache_flush dev true true s).st.slots i).dirty = false) ∧
    (block_cache_flush dev true true s).st.dirty_blocks = false ∧
    (∀ p sec, hash_lookup (block_cache_flush dev true true s).st p sec = none) := by
  obtain ⟨L1, L2, L3⟩ := flush_loop_flush_all dev hdev CACHE_SIZE 0 s
  have hbf : block_cache_flush dev true true s =
      { st := { (flush_loop dev true true 0 CACHE_SIZE s).1 with dirty_blocks := false }
        code := RES_OK, log := (flush_loop dev true true 0 CACHE_SIZE s).2.2 } := by
    unfold block_cache_flush
    rw [if_neg (by rw [hflag]; simp)]
    dsimp only
    rw [L1]
  rw [hbf]
  have hslots : ∀ i, i < CACHE_SIZE →
      ((flush_loop dev true true 0 CACHE_SIZE s).1.slots i).valid = false ∧
      ((flush_loop dev true true 0 CACHE_SIZE s).1.slots i).dirty = false := by
    intro i hi
    have hval := L3 i (by omega) (by omega)
    refine ⟨hval, ?_⟩
    rcases hdi : ((flush_loop dev true true 0 CACHE_SIZE s).1.slots i).dirty with _ | _
    · rfl
    · exfalso
      obtain ⟨hd0, hvv⟩ := (flush_loop_slots dev true true CACHE_SIZE 0 s i).2.2.2.2.1 hdi
      have := hdv i hi hd0
      rw [hval] at hvv
      rw [this] at hvv
      exact Bool.false_ne_true hvv
  refine ⟨rfl, L2, hslots, rfl, ?_⟩
  intro p sec
  unfold hash_lookup
  apply List.find?_eq_none.mpr
  intro x hx
  have hxt : x ∈ s.hash_table (hash_key p sec) := by
    have hht : ({ (flush_loop dev true true 0 CACHE_SIZE s).1 with
        dirty_blocks := false } : CacheState).hash_table = s.hash_table := by
      have := (flush_loop_globals dev true true CACHE_SIZE 0 s).1
      exact this
    rw [hht] at hx
    exact hx
  have hxlt : x < CACHE_SIZE := hchain _ (hash_key_lt p sec) x hxt
  have hxv := (hslots x hxlt).1
  unfold entry_matches
  rw [hxv]
  simp

set_option maxRecDepth 100000 in
/-- Witness: C7 applied to the cache right after one write of key (0,5)
into the fresh cache (slot 127 is then the unique dirty slot). -/
theorem c7_witness :
    (block_cache_flush okDevice false false
      (block_cache_write_block okDevice initState 0 5 42).st).code = RES_OK ∧
    (block_cache_flush okDevice false false
      (block_cache_write_block okDevice initState 0 5 42).st).log =
        [DevEvent.writeEv 0 5 42] ∧
    ((block_cache_flush okDevice false false
      (block_cache_write_block okDevice initState 0 5 42).st).st.slots 127).dirty
        = false ∧
    (block_cache_flush okDevice false false (block_cache_flush okDevice false false
      (block_cache_write_block okDevice initState 0 5 42).st).st).code = RES_OK ∧
    (block_cache_flush okDevice false false (block_cache_flush okDevice false false
      (block_cache_write_block okDevice initState 0 5 42).st).st).log = [] :=
  c7_incremental_flush okDevice
    (block_cache_write_block okDevice initState 0 5 42).st 127
    (by set_option maxRecDepth 40000 in decide)
    (by decide)
    (by set_option maxRecDepth 40000 in decide)
    (by set_option maxRecDepth 40000 in decide)
    (by set_option maxRecDepth 40000 in decide)
    (fun _ _ _ => rfl)

set_option maxRecDepth 100000 in
/-- Witness: the amended C5 theorem applied to the cache right after one
write of key (0,5) into the fresh cache, with conclusions projected to
slot 127 and key (0,5). -/
theorem c5_amended_witness :
    (block_cache_flush okDevice true true
      (block_cache_write_block okDevice initState 0 5 42).st).code = RES_OK ∧
    (block_cache_flush okDevice true true
      (block_cache_write_block okDevice initState 0 5 42).st).log =
        [DevEvent.writeEv 0 5 42] ∧
    ((block_cache_flush okDevice true true
      (block_cache_write_block okDevice initState 0 5 42).st).st.slots 127).valid
        = false ∧
    (block_cache_flush okDevice true true
      (block_cache_write_block okDevice initState 0 5 42).st).st.dirty_blocks = false ∧
    hash_lookup (block_cache_flush okDevice true true
      (block_cache_write_block okDevice initState 0 5 42).st).st 0 5 = none := by
  have h := c5_flush_all_invalidate okDevice
    (block_cache_write_block okDevice initState 0 5 42).st
    (by set_option maxRecDepth 40000 in decide)
    (by set_option maxRecDepth 40000 in decide)
    (by set_option maxRecDepth 40000 in decide)
    (fun _ _ _ => rfl)
  refine ⟨h.1, ?_, (h.2.2.1 127 (by decide)).1, h.2.2.2.1, h.2.2.2.2 0 5⟩
  rw [h.2.1]
  set_option maxRecDepth 40000 in decide

/-!
The state invariant of the singly initialised cache, proved below to hold
in every state reachable from block_cache_init by read, write and flush
operations.  It makes precise the representation of the intrusive C
structures as index lists: every slot occurs at most once in each
structure and the structures are disjoint in the way the C code relies
on.
-/

structure CacheInv (s : CacheState) : Prop where
  hash_lt : ∀ b, b < HASH_SIZE → ∀ i ∈ s.hash_table b, i < CACHE_SIZE
  hash_out : ∀ b, HASH_SIZE ≤ b → s.hash_table b = []
  hash_bucket : ∀ b, b < HASH_SIZE → ∀ i ∈ s.hash_table b, b = bucketOf s i
  hash_nodup : ∀ b, (s.hash_table b).Nodup
  lru_lt : ∀ i ∈ s.lru, i < CACHE_SIZE
  lru_nodup : s.lru.Nodup
  free_lt : ∀ i ∈ s.free, i < CACHE_SIZE
  free_nodup : s.free.Nodup
  free_invalid : ∀ i ∈ s.free, (s.slots i).valid = false
  free_unchained : ∀ i ∈ s.free, ∀ b, i ∉ s.hash_table b
  free_not_lru : ∀ i ∈ s.free, i ∉ s.lru
  valid_chained : ∀ i, i < CACHE_SIZE → (s.slots i).valid = true →
    i ∈ s.hash_table (bucketOf s i)
  valid_in_lru : ∀ i, i < CACHE_SIZE → (s.slots i).valid = true → i ∈ s.lru
  uniq : ∀ i, i < CACHE_SIZE → ∀ j, j < CACHE_SIZE →
    (s.slots i).valid = true → (s.slots j).valid = true →
    (s.slots i).pdrv = (s.slots j).pdrv → (s.slots i).sector = (s.slots j).sector →
    i = j
  dirty_valid : ∀ i, i < CACHE_SIZE → (s.slots i).dirty = true → (s.slots i).valid = true
  flag : s.dirty_blocks = false → ∀ i, i < CACHE_SIZE → (s.slots i).dirty = false

theorem nodup_erase {l : List Nat} (a : Nat) (h : l.Nodup) : (l.erase a).Nodup :=
  h.sublist (List.erase_sublist a l)

theorem nodup_not_mem_erase {l : List Nat} {a : Nat} (h : l.Nodup) : a ∉ l.erase a := by
  intro hmem
  have h1 : l.count a ≤ 1 := List.nodup_iff_count_le_one.mp h a
  have h2 : (l.erase a).count a = l.count a - 1 := List.count_erase_self a l
  have h3 : 0 < (l.erase a).count a := List.count_pos_iff.mpr hmem
  omega

theorem mem_erase_of_ne_of_mem {l : List Nat} {a b : Nat} (hab : a ≠ b) (h : a ∈ l) :
    a ∈ l.erase b := (List.mem_erase_of_ne hab).mpr h

theorem getLast?_mem_list {l : List Nat} {t : Nat} (h : l.getLast? = some t) : t ∈ l := by
  obtain ⟨hne, heq⟩ := List.mem_getLast?_eq_getLast (show t ∈ l.getLast? from h)
  rw [heq]
  exact List.getLast_mem hne

/-- What a successful lookup guarantees: the slot is in the bucket chain of
the key, is valid, and carries exactly that key. -/
theorem hash_lookup_some_facts (s : CacheState) (p sec i : Nat)
    (h : hash_lookup s p sec = some i) :
    i ∈ s.hash_table (hash_key p sec) ∧ (s.slots i).valid = true ∧
    (s.slots i).sector = sec ∧ (s.slots i).pdrv = p := by
  unfold hash_lookup at h
  have hm := List.mem_of_find?_eq_some h
  have hp := List.find?_some h
  unfold entry_matches at hp
  simp only [Bool.and_eq_true, beq_iff_eq] at hp
  exact ⟨hm, hp.1.1, hp.1.2, hp.2⟩

/-- A failed lookup means no pool slot holds the key as a valid entry. -/
theorem lookup_none_no_valid (s : CacheState) (p sec : Nat) (inv : CacheInv s)
    (h : hash_lookup s p sec = none) :
    ∀ j, j < CACHE_SIZE → (s.slots j).valid = true →
      ¬((s.slots j).pdrv = p ∧ (s.slots j).sector = sec) := by
  rintro j hj hv ⟨hp, hs⟩
  have hb : bucketOf s j = hash_key p sec := by unfold bucketOf; rw [hp, hs]
  have hmem := inv.valid_chained j hj hv
  rw [hb] at hmem
  have hno := List.find?_eq_none.mp h j hmem
  apply hno
  unfold entry_matches
  rw [hv, hs, hp]
  simp

theorem bucketOf_congr (s t : CacheState) (j : Nat)
    (hp : (t.slots j).pdrv = (s.slots j).pdrv)
    (hs : (t.slots j).sector = (s.slots j).sector) :
    bucketOf t j = bucketOf s j := by
  unfold bucketOf
  rw [hp, hs]

/-- lru_touch of a slot already in the LRU list preserves the invariant. -/
theorem inv_lru_touch (s : CacheState) (i : Nat) (inv : CacheInv s) (hmem : i ∈ s.lru) :
    CacheInv (lru_touch s i) := by
  unfold lru_touch
  by_cases hh : s.lru.head? = some i
  · rw [if_pos hh]
    exact inv
  · rw [if_neg hh]
    refine { hash_lt := inv.hash_lt, hash_out := inv.hash_out
             hash_bucket := inv.hash_bucket
             hash_nodup := inv.hash_nodup, free_lt := inv.free_lt
             free_nodup := inv.free_nodup, free_invalid := inv.free_invalid
             free_unchained := inv.free_unchained, uniq := inv.uniq
             dirty_valid := inv.dirty_valid, flag := inv.flag
             valid_chained := inv.valid_chained
             lru_lt := ?_, lru_nodup := ?_, free_not_lru := ?_, valid_in_lru := ?_ }
    · intro j hj
      rcases List.mem_cons.mp hj with hji | hje
      · subst hji
        exact inv.lru_lt j hmem
      · exact inv.lru_lt j (List.mem_of_mem_erase hje)
    · exact List.nodup_cons.mpr ⟨nodup_not_mem_erase inv.lru_nodup,
        nodup_erase i inv.lru_nodup⟩
    · intro j hj hcon
      rcases List.mem_cons.mp hcon with hji | hje
      · subst hji
        exact inv.free_not_lru j hj hmem
      · exact inv.free_not_lru j hj (List.mem_of_mem_erase hje)
    · intro j hj hv
      by_cases hji : j = i
      · subst hji
        exact List.mem_cons_self j _
      · exact List.mem_cons_of_mem i
          (mem_erase_of_ne_of_mem hji (inv.valid_in_lru j hj hv))

/-- Updating one slot without changing its key or validity (and possibly
setting the global dirty flag) preserves the invariant. -/
theorem inv_update_slot_same_shape (s : CacheState) (i : Nat) (e : CacheEntry)
    (db : Bool) (inv : CacheInv s)
    (hv : e.valid = (s.slots i).valid)
    (hsec : e.sector = (s.slots i).sector)
    (hp : e.pdrv = (s.slots i).pdrv)
    (hdv : e.dirty = true → e.valid = true)
    (hflag : db = false → s.dirty_blocks = false ∧ e.dirty = false) :
    CacheInv { setSlot s i e with dirty_blocks := db } := by
  have hsl : ∀ j, ({ setSlot s i e with dirty_blocks := db } : CacheState).slots j
      = if j = i then e else s.slots j := by
    intro j
    show (setSlot s i e).slots j = _
    unfold setSlot
    rfl
  have hval : ∀ j, (({ setSlot s i e with dirty_blocks := db } : CacheState).slots j).valid
      = (s.slots j).valid := by
    intro j
    rw [hsl j]
    by_cases hj : j = i
    · rw [if_pos hj, hj, hv]
    · rw [if_neg hj]
  have hkeyp : ∀ j, (({ setSlot s i e with dirty_blocks := db } : CacheState).slots j).pdrv
      = (s.slots j).pdrv := by
    intro j
    rw [hsl j]
    by_cases hj : j = i
    · rw [if_pos hj, hj, hp]
    · rw [if_neg hj]
  have hkeys : ∀ j, (({ setSlot s i e with dirty_blocks := db } : CacheState).slots j).sector
      = (s.slots j).sector := by
    intro j
    rw [hsl j]
    by_cases hj : j = i
    · rw [if_pos hj, hj, hsec]
    · rw [if_neg hj]
  have hbk : ∀ j, bucketOf { setSlot s i e with dirty_blocks := db } j = bucketOf s j :=
    fun j => bucketOf_congr s _ j (hkeyp j) (hkeys j)
  refine { hash_lt := inv.hash_lt, hash_out := inv.hash_out
           hash_nodup := inv.hash_nodup
           lru_lt := inv.lru_lt, lru_nodup := inv.lru_nodup
           free_lt := inv.free_lt, free_nodup := inv.free_nodup
           free_unchained := inv.free_unchained, free_not_lru := inv.free_not_lru
           hash_bucket := ?_, free_invalid := ?_, valid_chained := ?_
           valid_in_lru := ?_, uniq := ?_, dirty_valid := ?_, flag := ?_ }
  · intro b hb j hj
    rw [hbk j]
    exact inv.hash_bucket b hb j hj
  · intro j hj
    rw [hval j]
    exact inv.free_invalid j hj
  · intro j hj hvj
    rw [hbk j]
    rw [hval j] at hvj
    exact inv.valid_chained j hj hvj
  · intro j hj hvj
    rw [hval j] at hvj
    exact inv.valid_in_lru j hj hvj
  · intro j hj k hk hvj hvk hpjk hsjk
    rw [hval j] at hvj
    rw [hval k] at hvk
    rw [hkeyp j, hkeyp k] at hpjk
    rw [hkeys j, hkeys k] at hsjk
    exact inv.uniq j hj k hk hvj hvk hpjk hsjk
  · intro j hj hdj
    rw [hsl j] at hdj ⊢
    by_cases hji : j = i
    · rw [if_pos hji] at hdj ⊢
      exact hdv hdj
    · rw [if_neg hji] at hdj ⊢
      exact inv.dirty_valid j hj hdj
  · intro hdb j hj
    have hflag2 := hflag hdb
    rw [hsl j]
    by_cases hji : j = i
    · rw [if_pos hji]
      exact hflag2.2
    · rw [if_neg hji]
      exact inv.flag hflag2.1 j hj

/-- Popping the free list head preserves the invariant and yields a slot
that is invalid, unchained, outside the LRU list and outside the new free
list. -/
theorem inv_free_pop (s : CacheState) (t : Nat) (rest : List Nat) (inv : CacheInv s)
    (h : s.free = t :: rest) :
    CacheInv { s with free := rest } ∧ t < CACHE_SIZE ∧ (s.slots t).valid = false ∧
    (∀ b, t ∉ s.hash_table b) ∧ t ∉ s.lru ∧ t ∉ rest := by
  have hmem : t ∈ s.free := by rw [h]; exact List.mem_cons_self t rest
  have hsub : ∀ j, j ∈ rest → j ∈ s.free := by
    intro j hj
    rw [h]
    exact List.mem_cons_of_mem t hj
  have hnd : (t :: rest).Nodup := by rw [← h]; exact inv.free_nodup
  refine ⟨?_, inv.free_lt t hmem, inv.free_invalid t hmem, inv.free_unchained t hmem,
    inv.free_not_lru t hmem, (List.nodup_cons.mp hnd).1⟩
  exact { hash_lt := inv.hash_lt, hash_out := inv.hash_out
          hash_bucket := inv.hash_bucket
          hash_nodup := inv.hash_nodup, lru_lt := inv.lru_lt
          lru_nodup := inv.lru_nodup
          free_lt := fun j hj => inv.free_lt j (hsub j hj)
          free_nodup := (List.nodup_cons.mp hnd).2
          free_invalid := fun j hj => inv.free_invalid j (hsub j hj)
          free_unchained := fun j hj => inv.free_unchained j (hsub j hj)
          free_not_lru := fun j hj => inv.free_not_lru j (hsub j hj)
          valid_chained := inv.valid_chained, valid_in_lru := inv.valid_in_lru
          uniq := inv.uniq, dirty_valid := inv.dirty_valid, flag := inv.flag }


/-- The state committed by a successful eviction of slot t: remove from
hash index and LRU list, then clear valid and dirty. -/
def evictCommit (s : CacheState) (t : Nat) : CacheState :=
  setSlot (lru_remove (hash_remove s t) t) t
    { (lru_remove (hash_remove s t) t).slots t with valid := false, dirty := false }

theorem evictCommit_slots (s : CacheState) (t j : Nat) :
    (evictCommit s t).slots j =
      if j = t then { s.slots t with valid := false, dirty := false } else s.slots j := by
  unfold evictCommit
  by_cases hj : j = t
  · subst hj
    rw [setSlot_slots_self, if_pos rfl]
    rfl
  · rw [setSlot_slots_ne _ _ _ _ hj, if_neg hj]
    rfl

theorem evictCommit_hash (s : CacheState) (t b : Nat) :
    (evictCommit s t).hash_table b =
      if b = bucketOf s t then (s.hash_table (bucketOf s t)).erase t
      else s.hash_table b := rfl

theorem evictCommit_lru (s : CacheState) (t : Nat) :
    (evictCommit s t).lru = s.lru.erase t := rfl

theorem evictCommit_free (s : CacheState) (t : Nat) :
    (evictCommit s t).free = s.free := rfl

theorem evictCommit_flag (s : CacheState) (t : Nat) :
    (evictCommit s t).dirty_blocks = s.dirty_blocks := rfl

/-- A successful eviction picks exactly the LRU tail and commits the
removal state. -/
theorem evict_entry_some_st (dev : Device) (s : CacheState) (t : Nat)
    (h : (evict_entry dev s).slot = some t) :
    s.lru.getLast? = some t ∧ (evict_entry dev s).st = evictCommit s t := by
  unfold evict_entry at h ⊢
  rcases hl : s.lru.getLast? with _ | t0 <;> rw [hl] at h
  · simp at h
  · dsimp only at h ⊢
    by_cases hvd : ((s.slots t0).valid && (s.slots t0).dirty) = true
    · rw [if_pos hvd] at h ⊢
      by_cases hw : dev.write (s.slots t0).pdrv (s.slots t0).sector (s.slots t0).data ≠ RES_OK
      · rw [if_pos hw] at h
        simp at h
      · rw [if_neg hw] at h ⊢
        simp only [Option.some.injEq] at h
        subst h
        exact ⟨rfl, rfl⟩
    · rw [if_neg hvd] at h ⊢
      simp only [Option.some.injEq] at h
      subst h
      exact ⟨rfl, rfl⟩

theorem bucketOf_evictCommit (s : CacheState) (t j : Nat) :
    bucketOf (evictCommit s t) j = bucketOf s j := by
  unfold bucketOf
  rw [evictCommit_slots]
  by_cases hj : j = t
  · rw [if_pos hj, hj]
  · rw [if_neg hj]

/-- Committing an eviction of an LRU member preserves the invariant and
leaves the reclaimed slot invalid, clean, unchained and outside the LRU
and free lists, with every other slot untouched. -/
theorem inv_evict_state (s : CacheState) (t : Nat) (inv : CacheInv s)
    (hmem : t ∈ s.lru) :
    CacheInv (evictCommit s t) ∧ t < CACHE_SIZE ∧
    ((evictCommit s t).slots t).valid = false ∧
    (∀ b, t ∉ (evictCommit s t).hash_table b) ∧
    t ∉ (evictCommit s t).lru ∧
    t ∉ (evictCommit s t).free := by
  have hlt : t < CACHE_SIZE := inv.lru_lt t hmem
  have hBlt : bucketOf s t < HASH_SIZE := hash_key_lt _ _
  have hunch : ∀ b, t ∉ (evictCommit s t).hash_table b := by
    intro b
    rw [evictCommit_hash]
    by_cases hb : b = bucketOf s t
    · rw [if_pos hb]
      exact nodup_not_mem_erase (inv.hash_nodup _)
    · rw [if_neg hb]
      intro hcon
      by_cases hblt : b < HASH_SIZE
      · exact hb (inv.hash_bucket b hblt t hcon)
      · rw [inv.hash_out b (by omega)] at hcon
        exact List.not_mem_nil t hcon
  have hnotlru : t ∉ (evictCommit s t).lru := by
    rw [evictCommit_lru]
    exact nodup_not_mem_erase inv.lru_nodup
  have hnotfree : t ∉ (evictCommit s t).free := by
    rw [evictCommit_free]
    exact fun hf => inv.free_not_lru t hf hmem
  refine ⟨?_, hlt, by rw [evictCommit_slots, if_pos rfl], hunch, hnotlru, hnotfree⟩
  have hchain_ne_t : ∀ b, b < HASH_SIZE → ∀ j, j ∈ (evictCommit s t).hash_table b →
      j ≠ t := by
    intro b hb j hj hjt
    subst hjt
    exact hunch b hj
  refine { hash_lt := ?_, hash_out := ?_, hash_bucket := ?_, hash_nodup := ?_
           lru_lt := ?_, lru_nodup := ?_, free_lt := ?_, free_nodup := ?_
           free_invalid := ?_, free_unchained := ?_, free_not_lru := ?_
           valid_chained := ?_, valid_in_lru := ?_, uniq := ?_
           dirty_valid := ?_, flag := ?_ }
  · intro b hb j hj
    rw [evictCommit_hash] at hj
    by_cases hbB : b = bucketOf s t
    · rw [if_pos hbB] at hj
      exact inv.hash_lt _ (hbB ▸ hb) j (List.mem_of_mem_erase hj)
    · rw [if_neg hbB] at hj
      exact inv.hash_lt b hb j hj
  · intro b hb
    rw [evictCommit_hash, if_neg (by omega : ¬b = bucketOf s t)]
    exact inv.hash_out b hb
  · intro b hb j hj
    have hjt : j ≠ t := hchain_ne_t b hb j hj
    rw [evictCommit_hash] at hj
    rw [bucketOf_evictCommit]
    by_cases hbB : b = bucketOf s t
    · rw [if_pos hbB] at hj
      rw [hbB]
      exact inv.hash_bucket _ (hbB ▸ hb) j (List.mem_of_mem_erase hj)
    · rw [if_neg hbB] at hj
      exact inv.hash_bucket b hb j hj
  · intro b
    rw [evictCommit_hash]
    by_cases hbB : b = bucketOf s t
    · rw [if_pos hbB]
      exact nodup_erase t (inv.hash_nodup _)
    · rw [if_neg hbB]
      exact inv.hash_nodup b
  · intro j hj
    rw [evictCommit_lru] at hj
    exact inv.lru_lt j (List.mem_of_mem_erase hj)
  · rw [evictCommit_lru]
    exact nodup_erase t inv.lru_nodup
  · intro j hj
    rw [evictCommit_free] at hj
    exact inv.free_lt j hj
  · rw [evictCommit_free]
    exact inv.free_nodup
  · intro j hj
    rw [evictCommit_free] at hj
    rw [evictCommit_slots]
    by_cases hjt : j = t
    · rw [if_pos hjt]
    · rw [if_neg hjt]
      exact inv.free_invalid j hj
  · intro j hj b
    rw [evictCommit_free] at hj
    rw [evictCommit_hash]
    by_cases hbB : b = bucketOf s t
    · rw [if_pos hbB]
      intro hcon
      exact inv.free_unchained j hj _ (List.mem_of_mem_erase hcon)
    · rw [if_neg hbB]
      exact inv.free_unchained j hj b
  · intro j hj
    rw [evictCommit_free] at hj
    rw [evictCommit_lru]
    intro hcon
    exact inv.free_not_lru j hj (List.mem_of_mem_erase hcon)
  · intro j hj hv
    have hjt : j ≠ t := by
      intro hjt
      rw [evictCommit_slots, if_pos hjt] at hv
      exact absurd hv (by simp)
    rw [evictCommit_slots, if_neg hjt] at hv
    rw [bucketOf_evictCommit, evictCommit_hash]
    by_cases hbB : bucketOf s j = bucketOf s t
    · rw [if_pos hbB]
      exact mem_erase_of_ne_of_mem hjt (hbB ▸ inv.valid_chained j hj hv)
    · rw [if_neg hbB]
      exact inv.valid_chained j hj hv
  · intro j hj hv
    have hjt : j ≠ t := by
      intro hjt
      rw [evictCommit_slots, if_pos hjt] at hv
      exact absurd hv (by simp)
    rw [evictCommit_slots, if_neg hjt] at hv
    rw [evictCommit_lru]
    exact mem_erase_of_ne_of_mem hjt (inv.valid_in_lru j hj hv)
  · intro j hj k hk hvj hvk hpk hsk
    have hjt : j ≠ t := by
      intro hjt
      rw [evictCommit_slots, if_pos hjt] at hvj
      exact absurd hvj (by simp)
    have hkt : k ≠ t := by
      intro hkt
      rw [evictCommit_slots, if_pos hkt] at hvk
      exact absurd hvk (by simp)
    rw [evictCommit_slots s t j, if_neg hjt] at hvj hpk hsk
    rw [evictCommit_slots s t k, if_neg hkt] at hvk hpk hsk
    exact inv.uniq j hj k hk hvj hvk hpk hsk
  · intro j hj hd
    rw [evictCommit_slots] at hd ⊢
    by_cases hjt : j = t
    · rw [if_pos hjt] at hd
      exact absurd hd (by simp)
    · rw [if_neg hjt] at hd ⊢
      exact inv.dirty_valid j hj hd
  · intro hf j hj
    rw [evictCommit_flag] at hf
    rw [evictCommit_slots]
    by_cases hjt : j = t
    · rw [if_pos hjt]
    · rw [if_neg hjt]
      exact inv.flag hf j hj

/-- Inserting a freshly acquired slot (invalid, unchained, not in LRU or
free list) with a key that no valid slot holds preserves the invariant.
X is the state after the slot fields have been stored (as in
read_miss_load and write_miss_store), s1 the state before. -/
theorem inv_insert_core (s1 X : CacheState) (t p sec d : Nat) (dv : Bool)
    (inv1 : CacheInv s1) (lt : t < CACHE_SIZE)
    (unchained : ∀ b, t ∉ s1.hash_table b)
    (not_lru : t ∉ s1.lru) (not_free : t ∉ s1.free)
    (nokey : ∀ j, j < CACHE_SIZE → (s1.slots j).valid = true →
      ¬((s1.slots j).pdrv = p ∧ (s1.slots j).sector = sec))
    (hXt : X.slots t = { sector := sec, pdrv := p, dirty := dv, valid := true, data := d })
    (hXj : ∀ j, j ≠ t → X.slots j = s1.slots j)
    (hXh : X.hash_table = s1.hash_table) (hXl : X.lru = s1.lru) (hXf : X.free = s1.free)
    (hXflag : X.dirty_blocks = false → s1.dirty_blocks = false ∧ dv = false) :
    CacheInv (lru_insert_front (hash_insert X t) t) := by
  have hKeq : bucketOf X t = hash_key p sec := by
    unfold bucketOf
    rw [hXt]
  have hKlt : bucketOf X t < HASH_SIZE := by rw [hKeq]; exact hash_key_lt p sec
  have hShash : ∀ b, (lru_insert_front (hash_insert X t) t).hash_table b =
      if b = bucketOf X t then t :: X.hash_table (bucketOf X t) else X.hash_table b :=
    fun b => rfl
  have hSslots : ∀ j, (lru_insert_front (hash_insert X t) t).slots j = X.slots j :=
    fun j => rfl
  have hSlru : (lru_insert_front (hash_insert X t) t).lru = t :: X.lru := rfl
  have hSfree : (lru_insert_front (hash_insert X t) t).free = X.free := rfl
  have hSflag : (lru_insert_front (hash_insert X t) t).dirty_blocks = X.dirty_blocks := rfl
  have hbkt : bucketOf (lru_insert_front (hash_insert X t) t) t = bucketOf X t := rfl
  have hbkj : ∀ j, j ≠ t →
      bucketOf (lru_insert_front (hash_insert X t) t) j = bucketOf s1 j := by
    intro j hj
    unfold bucketOf
    rw [hSslots j, hXj j hj]
  refine { hash_lt := ?_, hash_out := ?_, hash_bucket := ?_, hash_nodup := ?_
           lru_lt := ?_, lru_nodup := ?_, free_lt := ?_, free_nodup := ?_
           free_invalid := ?_, free_unchained := ?_, free_not_lru := ?_
           valid_chained := ?_, valid_in_lru := ?_, uniq := ?_
           dirty_valid := ?_, flag := ?_ }
  · intro b hb j hj
    rw [hShash] at hj
    by_cases hbK : b = bucketOf X t
    · rw [if_pos hbK] at hj
      rcases List.mem_cons.mp hj with hjt | hjm
      · subst hjt
        exact lt
      · rw [hXh] at hjm
        exact inv1.hash_lt _ (hbK ▸ hb) j hjm
    · rw [if_neg hbK, hXh] at hj
      exact inv1.hash_lt b hb j hj
  · intro b hb
    rw [hShash, if_neg (by omega : ¬b = bucketOf X t), hXh]
    exact inv1.hash_out b hb
  · intro b hb j hj
    rw [hShash] at hj
    by_cases hbK : b = bucketOf X t
    · rw [if_pos hbK] at hj
      rcases List.mem_cons.mp hj with hjt | hjm
      · subst hjt
        rw [hbkt, hbK]
      · rw [hXh] at hjm
        have hjt : j ≠ t := fun hc => unchained _ (hc ▸ hjm)
        rw [hbkj j hjt, hbK]
        exact inv1.hash_bucket _ (hbK ▸ hb) j hjm
    · rw [if_neg hbK, hXh] at hj
      have hjt : j ≠ t := fun hc => unchained _ (hc ▸ hj)
      rw [hbkj j hjt]
      exact inv1.hash_bucket b hb j hj
  · intro b
    rw [hShash]
    by_cases hbK : b = bucketOf X t
    · rw [if_pos hbK, hXh]
      exact List.nodup_cons.mpr ⟨unchained _, inv1.hash_nodup _⟩
    · rw [if_neg hbK, hXh]
      exact inv1.hash_nodup b
  · intro j hj
    rw [hSlru] at hj
    rcases List.mem_cons.mp hj with hjt | hjm
    · subst hjt
      exact lt
    · rw [hXl] at hjm
      exact inv1.lru_lt j hjm
  · rw [hSlru, hXl]
    exact List.nodup_cons.mpr ⟨not_lru, inv1.lru_nodup⟩
  · intro j hj
    rw [hSfree, hXf] at hj
    exact inv1.free_lt j hj
  · rw [hSfree, hXf]
    exact inv1.free_nodup
  · intro j hj
    rw [hSfree, hXf] at hj
    have hjt : j ≠ t := fun hc => not_free (hc ▸ hj)
    rw [hSslots j, hXj j hjt]
    exact inv1.free_invalid j hj
  · intro j hj b
    rw [hSfree, hXf] at hj
    have hjt : j ≠ t := fun hc => not_free (hc ▸ hj)
    rw [hShash]
    by_cases hbK : b = bucketOf X t
    · rw [if_pos hbK, hXh]
      intro hcon
      rcases List.mem_cons.mp hcon with hc | hc
      · exact hjt hc
      · exact inv1.free_unchained j hj _ hc
    · rw [if_neg hbK, hXh]
      exact inv1.free_unchained j hj b
  · intro j hj
    rw [hSfree, hXf] at hj
    have hjt : j ≠ t := fun hc => not_free (hc ▸ hj)
    rw [hSlru, hXl]
    intro hcon
    rcases List.mem_cons.mp hcon with hc | hc
    · exact hjt hc
    · exact inv1.free_not_lru j hj hc
  · intro j hj hv
    by_cases hjt : j = t
    · subst hjt
      rw [hbkt, hShash, if_pos rfl]
      exact List.mem_cons_self j _
    · rw [hSslots j, hXj j hjt] at hv
      rw [hbkj j hjt, hShash]
      by_cases hbK : bucketOf s1 j = bucketOf X t
      · rw [if_pos hbK, hXh]
        exact List.mem_cons_of_mem t (hbK ▸ inv1.valid_chained j hj hv)
      · rw [if_neg hbK, hXh]
        exact inv1.valid_chained j hj hv
  · intro j hj hv
    rw [hSlru]
    by_cases hjt : j = t
    · subst hjt
      exact List.mem_cons_self j _
    · rw [hSslots j, hXj j hjt] at hv
      rw [hXl]
      exact List.mem_cons_of_mem t (inv1.valid_in_lru j hj hv)
  · intro j hj k hk hvj hvk hpk hsk
    rw [hSslots j] at hvj hpk hsk
    rw [hSslots k] at hpk hsk
    rw [hSslots k] at hvk
    by_cases hjt : j = t <;> by_cases hkt : k = t
    · rw [hjt, hkt]
    · exfalso
      rw [hjt, hXt] at hpk hsk
      rw [hXj k hkt] at hvk hpk hsk
      exact nokey k hk hvk ⟨hpk.symm, hsk.symm⟩
    · exfalso
      rw [hkt, hXt] at hpk hsk
      rw [hXj j hjt] at hvj hpk hsk
      exact nokey j hj hvj ⟨hpk, hsk⟩
    · rw [hXj j hjt] at hvj hpk hsk
      rw [hXj k hkt] at hvk hpk hsk
      exact inv1.uniq j hj k hk hvj hvk hpk hsk
  · intro j hj hd
    rw [hSslots j] at hd ⊢
    by_cases hjt : j = t
    · subst hjt
      rw [hXt]
    · rw [hXj j hjt] at hd ⊢
      exact inv1.dirty_valid j hj hd
  · intro hf j hj
    rw [hSflag] at hf
    obtain ⟨hf1, hdv⟩ := hXflag hf
    rw [hSslots j]
    by_cases hjt : j = t
    · subst hjt
      rw [hXt]
      exact hdv
    · rw [hXj j hjt]
      exact inv1.flag hf1 j hj

/-- A failed eviction leaves the state untouched. -/
theorem evict_entry_fail_st (dev : Device) (s : CacheState)
    (h : (evict_entry dev s).slot = none) : (evict_entry dev s).st = s := by
  unfold evict_entry at h ⊢
  rcases hl : s.lru.getLast? with _ | t
  · rfl
  · rw [hl] at h
    dsimp only at h ⊢
    by_cases hvd : ((s.slots t).valid && (s.slots t).dirty) = true
    · rw [if_pos hvd] at h ⊢
      by_cases hw : dev.write (s.slots t).pdrv (s.slots t).sector (s.slots t).data ≠ RES_OK
      · rw [if_pos hw]
      · rw [if_neg hw] at h
        simp at h
    · rw [if_neg hvd] at h
      simp at h

/-- block_cache_write_block preserves the invariant. -/
theorem inv_write_block (dev : Device) (s : CacheState) (p sec d : Nat)
    (inv : CacheInv s) :
    CacheInv (block_cache_write_block dev s p sec d).st := by
  unfold block_cache_write_block
  rcases hl : hash_lookup s p sec with _ | i
  · dsimp only
    rcases hfr : s.free with _ | ⟨t, rest⟩
    · rw [free_get_nil s hfr]
      dsimp only
      rcases hsl : (evict_entry dev s).slot with _ | t
      · dsimp only
        rw [evict_entry_fail_st dev s hsl]
        exact inv
      · dsimp only
        obtain ⟨hlast, hst⟩ := evict_entry_some_st dev s t hsl
        rw [hst]
        obtain ⟨inv1, hlt, hinv, hunch, hnlru, hnfree⟩ :=
          inv_evict_state s t inv (getLast?_mem_list hlast)
        have nokey : ∀ j, j < CACHE_SIZE → ((evictCommit s t).slots j).valid = true →
            ¬(((evictCommit s t).slots j).pdrv = p ∧
              ((evictCommit s t).slots j).sector = sec) := by
          intro j hj hv
          have hjt : j ≠ t := by
            intro hc
            rw [hc, evictCommit_slots, if_pos rfl] at hv
            exact absurd hv (by simp)
          rw [evictCommit_slots, if_neg hjt] at hv ⊢
          exact lookup_none_no_valid s p sec inv hl j hj hv
        exact inv_insert_core (evictCommit s t)
          { setSlot (evictCommit s t) t
              { sector := sec, pdrv := p, dirty := true, valid := true, data := d }
            with dirty_blocks := true }
          t p sec d true inv1 hlt hunch hnlru hnfree nokey
          (setSlot_slots_self _ _ _) (fun j hj => setSlot_slots_ne _ _ _ _ hj)
          rfl rfl rfl (fun hc => absurd hc (by simp))
    · rw [show free_get s = (some t, { s with free := rest }) from by
        unfold free_get; rw [hfr]]
      dsimp only
      obtain ⟨inv1, hlt, hinvalid, hunch, hnlru, hnrest⟩ := inv_free_pop s t rest inv hfr
      exact inv_insert_core { s with free := rest }
        { setSlot { s with free := rest } t
            { sector := sec, pdrv := p, dirty := true, valid := true, data := d }
          with dirty_blocks := true }
        t p sec d true inv1 hlt hunch hnlru hnrest
        (fun j hj hv => lookup_none_no_valid s p sec inv hl j hj hv)
        (setSlot_slots_self _ _ _) (fun j hj => setSlot_slots_ne _ _ _ _ hj)
        rfl rfl rfl (fun hc => absurd hc (by simp))
  · dsimp only
    obtain ⟨hchain, hvalid, hsec, hpdrv⟩ := hash_lookup_some_facts s p sec i hl
    have hilt : i < CACHE_SIZE := inv.hash_lt _ (hash_key_lt p sec) i hchain
    have inv2 := inv_update_slot_same_shape s i
      { s.slots i with data := d, dirty := true } true inv rfl rfl rfl
      (fun _ => hvalid) (fun hc => absurd hc (by simp))
    have hmem : i ∈ s.lru := inv.valid_in_lru i hilt hvalid
    exact inv_lru_touch _ i inv2 hmem

/-- block_cache_read_block preserves the invariant. -/
theorem inv_read_block (dev : Device) (s : CacheState) (p sec : Nat) (b : Bool)
    (inv : CacheInv s) :
    CacheInv (block_cache_read_block dev s p sec b).st := by
  unfold block_cache_read_block
  rcases hl : hash_lookup s p sec with _ | i
  · dsimp only
    rcases hfr : s.free with _ | ⟨t, rest⟩
    · rw [free_get_nil s hfr]
      dsimp only
      rcases hsl : (evict_entry dev s).slot with _ | t
      · dsimp only
        rw [evict_entry_fail_st dev s hsl]
        exact inv
      · dsimp only
        obtain ⟨hlast, hst⟩ := evict_entry_some_st dev s t hsl
        rw [hst]
        obtain ⟨inv1, hlt, hinv, hunch, hnlru, hnfree⟩ :=
          inv_evict_state s t inv (getLast?_mem_list hlast)
        have nokey : ∀ j, j < CACHE_SIZE → ((evictCommit s t).slots j).valid = true →
            ¬(((evictCommit s t).slots j).pdrv = p ∧
              ((evictCommit s t).slots j).sector = sec) := by
          intro j hj hv
          have hjt : j ≠ t := by
            intro hc
            rw [hc, evictCommit_slots, if_pos rfl] at hv
            exact absurd hv (by simp)
          rw [evictCommit_slots, if_neg hjt] at hv ⊢
          exact lookup_none_no_valid s p sec inv hl j hj hv
        unfold read_miss_load
        by_cases hrd : (dev.read p sec).1 ≠ RES_OK
        · rw [if_pos hrd]
          exact inv1
        · rw [if_neg hrd]
          dsimp only
          exact inv_insert_core (evictCommit s t)
            (setSlot (evictCommit s t) t
              { sector := sec, pdrv := p, dirty := false, valid := true,
                data := (dev.read p sec).2 })
            t p sec (dev.read p sec).2 false inv1 hlt hunch hnlru hnfree nokey
            (setSlot_slots_self _ _ _) (fun j hj => setSlot_slots_ne _ _ _ _ hj)
            rfl rfl rfl (fun hc => ⟨hc, rfl⟩)
    · rw [show free_get s = (some t, { s with free := rest }) from by
        unfold free_get; rw [hfr]]
      dsimp only
      obtain ⟨inv1, hlt, hinvalid, hunch, hnlru, hnrest⟩ := inv_free_pop s t rest inv hfr
      unfold read_miss_load
      by_cases hrd : (dev.read p sec).1 ≠ RES_OK
      · rw [if_pos hrd]
        exact inv1
      · rw [if_neg hrd]
        dsimp only
        exact inv_insert_core { s with free := rest }
          (setSlot { s with free := rest } t
            { sector := sec, pdrv := p, dirty := false, valid := true,
              data := (dev.read p sec).2 })
          t p sec (dev.read p sec).2 false inv1 hlt hunch hnlru hnrest
          (fun j hj hv => lookup_none_no_valid s p sec inv hl j hj hv)
          (setSlot_slots_self _ _ _) (fun j hj => setSlot_slots_ne _ _ _ _ hj)
          rfl rfl rfl (fun hc => ⟨hc, rfl⟩)
  · dsimp only
    obtain ⟨hchain, hvalid, hsec, hpdrv⟩ := hash_lookup_some_facts s p sec i hl
    have hilt : i < CACHE_SIZE := inv.hash_lt _ (hash_key_lt p sec) i hchain
    exact inv_lru_touch s i inv (inv.valid_in_lru i hilt hvalid)

/-- Any state that agrees with the flush loop result on slots, keeps the
structural lists of the original state, and satisfies the dirty-flag
condition, satisfies the invariant. -/
theorem inv_flush_core (dev : Device) (fa ia : Bool) (s : CacheState) (inv : CacheInv s)
    (T : CacheState)
    (hsl : ∀ j, T.slots j = (flush_loop dev fa ia 0 CACHE_SIZE s).1.slots j)
    (hht : T.hash_table = s.hash_table) (hlru : T.lru = s.lru) (hfree : T.free = s.free)
    (hflagc : T.dirty_blocks = false → ∀ j, j < CACHE_SIZE → (T.slots j).dirty = false) :
    CacheInv T := by
  have FS := fun j => flush_loop_slots dev fa ia CACHE_SIZE 0 s j
  have hsec : ∀ j, (T.slots j).sector = (s.slots j).sector := by
    intro j
    rw [hsl j]
    exact (FS j).1
  have hpd : ∀ j, (T.slots j).pdrv = (s.slots j).pdrv := by
    intro j
    rw [hsl j]
    exact (FS j).2.1
  have hvalid : ∀ j, (T.slots j).valid = true → (s.slots j).valid = true := by
    intro j hv
    rw [hsl j] at hv
    exact (FS j).2.2.2.1 hv
  have hbk : ∀ j, bucketOf T j = bucketOf s j :=
    fun j => bucketOf_congr s T j (hpd j) (hsec j)
  refine { hash_lt := ?_, hash_out := ?_, hash_bucket := ?_, hash_nodup := ?_
           lru_lt := ?_, lru_nodup := ?_, free_lt := ?_, free_nodup := ?_
           free_invalid := ?_, free_unchained := ?_, free_not_lru := ?_
           valid_chained := ?_, valid_in_lru := ?_, uniq := ?_
           dirty_valid := ?_, flag := hflagc }
  · intro b hb j hj
    rw [hht] at hj
    exact inv.hash_lt b hb j hj
  · intro b hb
    rw [hht]
    exact inv.hash_out b hb
  · intro b hb j hj
    rw [hht] at hj
    rw [hbk j]
    exact inv.hash_bucket b hb j hj
  · intro b
    rw [hht]
    exact inv.hash_nodup b
  · intro j hj
    rw [hlru] at hj
    exact inv.lru_lt j hj
  · rw [hlru]
    exact inv.lru_nodup
  · intro j hj
    rw [hfree] at hj
    exact inv.free_lt j hj
  · rw [hfree]
    exact inv.free_nodup
  · intro j hj
    rw [hfree] at hj
    rcases hv : (T.slots j).valid with _ | _
    · rfl
    · exact absurd (hvalid j hv) (by rw [inv.free_invalid j hj]; simp)
  · intro j hj b
    rw [hfree] at hj
    rw [hht]
    exact inv.free_unchained j hj b
  · intro j hj
    rw [hfree] at hj
    rw [hlru]
    exact inv.free_not_lru j hj
  · intro j hj hv
    rw [hbk j, hht]
    exact inv.valid_chained j hj (hvalid j hv)
  · intro j hj hv
    rw [hlru]
    exact inv.valid_in_lru j hj (hvalid j hv)
  · intro j hj k hk hvj hvk hpk hsk
    rw [hpd j, hpd k] at hpk
    rw [hsec j, hsec k] at hsk
    exact inv.uniq j hj k hk (hvalid j hvj) (hvalid k hvk) hpk hsk
  · intro j hj hd
    rw [hsl j] at hd
    obtain ⟨hd0, hveq⟩ := (FS j).2.2.2.2.1 hd
    have := inv.dirty_valid j hj hd0
    rw [hsl j, hveq]
    exact this

/-- block_cache_flush preserves the invariant. -/
theorem inv_flush (dev : Device) (fa ia : Bool) (s : CacheState) (inv : CacheInv s) :
    CacheInv (block_cache_flush dev fa ia s).st := by
  unfold block_cache_flush
  by_cases hdb : s.dirty_blocks = false
  · rw [if_pos hdb]
    exact inv
  · rw [if_neg hdb]
    dsimp only
    obtain ⟨hg1, hg2, hg3, hg4⟩ := flush_loop_globals dev fa ia CACHE_SIZE 0 s
    rcases hres : (flush_loop dev fa ia 0 CACHE_SIZE s).2.1 with _ | code
    · refine inv_flush_core dev fa ia s inv _ (fun j => rfl) hg1 hg2 hg3 ?_
      intro _ j hj
      rcases hd : ((flush_loop dev fa ia 0 CACHE_SIZE s).1.slots j).dirty with _ | _
      · rfl
      · exfalso
        have hcc := flush_loop_complete_clean dev fa ia CACHE_SIZE 0 s hres j
          (by omega) (by omega)
        obtain ⟨hd0, hveq⟩ :=
          (flush_loop_slots dev fa ia CACHE_SIZE 0 s j).2.2.2.2.1 hd
        have hvs := inv.dirty_valid j hj hd0
        exact hcc ⟨by rw [hveq, hvs], hd⟩
    · refine inv_flush_core dev fa ia s inv _ (fun j => rfl) hg1 hg2 hg3 ?_
      intro hfl j hj
      have : (flush_loop dev fa ia 0 CACHE_SIZE s).1.dirty_blocks = s.dirty_blocks := hg4
      rw [this] at hfl
      exact absurd hfl hdb

theorem init_free_loop_globals : ∀ n i s,
    (init_free_loop i n s).hash_table = s.hash_table ∧
    (init_free_loop i n s).lru = s.lru ∧
    (init_free_loop i n s).dirty_blocks = s.dirty_blocks := by
  intro n
  induction n with
  | zero => exact fun i s => ⟨rfl, rfl, rfl⟩
  | succ m ih =>
      intro i s
      unfold init_free_loop
      dsimp only
      by_cases hv : (s.slots i).valid = false
      · rw [if_pos hv]
        exact ih (i + 1) (free_insert s i)
      · rw [if_neg hv]
        exact ih (i + 1) s

theorem init_free_loop_zero_slots : ∀ n i s, (∀ j, s.slots j = zeroEntry) →
    ∀ j, (init_free_loop i n s).slots j = zeroEntry := by
  intro n
  induction n with
  | zero => exact fun i s h => h
  | succ m ih =>
      intro i s h
      unfold init_free_loop
      dsimp only
      by_cases hv : (s.slots i).valid = false
      · rw [if_pos hv]
        refine ih (i + 1) (free_insert s i) ?_
        intro j
        unfold free_insert
        by_cases hj : j = i
        · subst hj
          rw [show ((setSlot s j { s.slots j with valid := false }) : CacheState).slots j
              = { s.slots j with valid := false } from setSlot_slots_self _ _ _]
          rw [h j]
          rfl
        · exact (setSlot_slots_ne s i j _ hj).trans (h j)
      · rw [if_neg hv]
        exact ih (i + 1) s h

set_option maxRecDepth 1000000 in
/-- The freshly initialised cache satisfies the invariant. -/
theorem inv_initState : CacheInv initState := by
  have hht : initState.hash_table = fun _ => [] :=
    (init_free_loop_globals CACHE_SIZE 0
      { slots := fun _ => zeroEntry
        hash_table := fun _ => []
        dirty_blocks := bootState.dirty_blocks
        lru := []
        free := match bootState.free with | [] => [] | x :: _ => [x] }).1
  have hlru : initState.lru = [] :=
    (init_free_loop_globals CACHE_SIZE 0
      { slots := fun _ => zeroEntry
        hash_table := fun _ => []
        dirty_blocks := bootState.dirty_blocks
        lru := []
        free := match bootState.free with | [] => [] | x :: _ => [x] }).2.1
  have hflag : initState.dirty_blocks = true :=
    (init_free_loop_globals CACHE_SIZE 0
      { slots := fun _ => zeroEntry
        hash_table := fun _ => []
        dirty_blocks := bootState.dirty_blocks
        lru := []
        free := match bootState.free with | [] => [] | x :: _ => [x] }).2.2
  have hsl : ∀ j, initState.slots j = zeroEntry :=
    init_free_loop_zero_slots CACHE_SIZE 0
      { slots := fun _ => zeroEntry
        hash_table := fun _ => []
        dirty_blocks := bootState.dirty_blocks
        lru := []
        free := match bootState.free with | [] => [] | x :: _ => [x] } (fun _ => rfl)
  have hfree : initState.free = (List.range CACHE_SIZE).reverse := by
    set_option maxRecDepth 1000000 in decide
  refine { hash_lt := ?_, hash_out := ?_, hash_bucket := ?_, hash_nodup := ?_
           lru_lt := ?_, lru_nodup := ?_, free_lt := ?_, free_nodup := ?_
           free_invalid := ?_, free_unchained := ?_, free_not_lru := ?_
           valid_chained := ?_, valid_in_lru := ?_, uniq := ?_
           dirty_valid := ?_, flag := ?_ }
  · intro b _ j hj
    rw [hht] at hj
    exact absurd hj (List.not_mem_nil j)
  · intro b _
    rw [hht]
  · intro b _ j hj
    rw [hht] at hj
    exact absurd hj (List.not_mem_nil j)
  · intro b
    rw [hht]
    exact List.nodup_nil
  · intro j hj
    rw [hlru] at hj
    exact absurd hj (List.not_mem_nil j)
  · rw [hlru]
    exact List.nodup_nil
  · intro j hj
    rw [hfree] at hj
    exact List.mem_range.mp (List.mem_reverse.mp hj)
  · rw [hfree]
    exact List.nodup_reverse.mpr (List.nodup_range CACHE_SIZE)
  · intro j _
    rw [hsl j]
    rfl
  · intro j _ b
    rw [hht]
    exact List.not_mem_nil j
  · intro j _
    rw [hlru]
    exact List.not_mem_nil j
  · intro j _ hv
    rw [hsl j] at hv
    exact absurd hv (by simp [zeroEntry])
  · intro j _ hv
    rw [hsl j] at hv
    exact absurd hv (by simp [zeroEntry])
  · intro j _ k _ hvj _ _ _
    rw [hsl j] at hvj
    exact absurd hvj (by simp [zeroEntry])
  · intro j _ hd
    rw [hsl j] at hd
    exact absurd hd (by simp [zeroEntry])
  · intro hf
    rw [hflag] at hf
    exact absurd hf (by simp)

/-- Every state reachable from the single initialisation satisfies the
invariant. -/
theorem reachableSI_inv (s : CacheState) (h : ReachableSI s) : CacheInv s := by
  induction h with
  | base => exact inv_initState
  | step dev op hs ih =>
      cases op with
      | rd p sec b => exact inv_read_block dev _ p sec b ih
      | wr p sec d => exact inv_write_block dev _ p sec d ih
      | fl fa ia => exact inv_flush dev fa ia _ ih

/-- The per-slot predicate asserted by claim C4: each pool slot is either
free (on the free list, invalid, on no hash chain, not in the LRU list) or
cached (valid, occurring exactly once across all bucket chains and exactly
once in the LRU list). -/
def claimedSlotOk (s : CacheState) (i : Nat) : Bool :=
  (s.free.contains i &&
    !(s.slots i).valid &&
    ((List.range HASH_SIZE).all (fun b => !((s.hash_table b).contains i))) &&
    !(s.lru.contains i))
  ||
  ((s.slots i).valid &&
    (((List.range HASH_SIZE).map (fun b => (s.hash_table b).count i)).sum == 1) &&
    (s.lru.count i == 1))

/-- The full claimed invariant of C4 over the pool. -/
def claimedInv (s : CacheState) : Bool :=
  (List.range CACHE_SIZE).all (fun i => claimedSlotOk s i)

/-- The reachable state with key (0,5) cached dirty in slot 127. -/
def c4State : CacheState := (block_cache_write_block okDevice initState 0 5 42).st

/-- Claim C4 counterexample: the claimed invariant holds in the reachable
state c4State, but block_cache_flush with invalidate_all set does not
preserve it: slot 127 is invalidated yet stays in its hash bucket chain
and in the LRU list and is not put on the free list, so it is in neither
of the two claimed states. -/
theorem c4_counterexample :
    ReachableSI c4State ∧ claimedInv c4State = true ∧
    claimedInv (block_cache_flush okDevice true true c4State).st = false ∧
    ((block_cache_flush okDevice true true c4State).st.slots 127).valid = false ∧
    127 ∈ (block_cache_flush okDevice true true c4State).st.hash_table (hash_key 0 5) ∧
    127 ∈ (block_cache_flush okDevice true true c4State).st.lru ∧
    127 ∉ (block_cache_flush okDevice true true c4State).st.free := by
  refine ⟨ReachableSI.step okDevice (Op.wr 0 5 42) ReachableSI.base, ?_⟩
  set_option maxRecDepth 1000000 in decide

/-- Claim C4 amended: after the single initialisation, every reachable
state satisfies the weaker invariant that free-list slots are invalid,
unchained and outside the LRU list, and valid slots are chained exactly
once, in the bucket of their key, and occupy exactly one LRU position.
The two classes are not exhaustive: flush with invalidate_all set leaves
invalidated slots chained and in the LRU list (outside the free list)
until they are recycled by eviction, and a miss whose device load fails
leaves the acquired slot in none of the structures. -/
theorem c4_amended (s : CacheState) (h : ReachableSI s) :
    ∀ i, i < CACHE_SIZE →
      (i ∈ s.free → (s.slots i).valid = false ∧ (∀ b, i ∉ s.hash_table b) ∧ i ∉ s.lru) ∧
      ((s.slots i).valid = true →
        (∀ b, i ∈ s.hash_table b ↔ b = bucketOf s i) ∧
        (s.hash_table (bucketOf s i)).count i = 1 ∧
        s.lru.count i = 1) := by
  have inv := reachableSI_inv s h
  intro i hi
  constructor
  · intro hf
    exact ⟨inv.free_invalid i hf, inv.free_unchained i hf, inv.free_not_lru i hf⟩
  · intro hv
    refine ⟨?_, ?_, ?_⟩
    · intro b
      constructor
      · intro hm
        by_cases hb : b < HASH_SIZE
        · exact inv.hash_bucket b hb i hm
        · rw [inv.hash_out b (by omega)] at hm
          exact absurd hm (List.not_mem_nil i)
      · intro hb
        rw [hb]
        exact inv.valid_chained i hi hv
    · exact List.count_eq_one_of_mem (inv.hash_nodup _) (inv.valid_chained i hi hv)
    · exact List.count_eq_one_of_mem inv.lru_nodup (inv.valid_in_lru i hi hv)

/-- Witness: the amended C4 theorem applied to c4State at slot 127. -/
theorem c4_amended_witness :
    (c4State.slots 127).valid = true ∧
    (c4State.hash_table (bucketOf c4State 127)).count 127 = 1 ∧
    c4State.lru.count 127 = 1 := by
  have h := c4_amended c4State
    (ReachableSI.step okDevice (Op.wr 0 5 42) ReachableSI.base) 127 (by decide)
  have hv : (c4State.slots 127).valid = true := by
    set_option maxRecDepth 100000 in decide
  obtain ⟨-, h2⟩ := h
  obtain ⟨-, hc, hl⟩ := h2 hv
  exact ⟨hv, hc, hl⟩

theorem write_miss_store_hash (s1 : CacheState) (p sec t d : Nat) (b : Nat) :
    (write_miss_store s1 p sec t d).hash_table b =
      if b = hash_key p sec then t :: s1.hash_table (hash_key p sec)
      else s1.hash_table b := by
  have hbk : bucketOf { setSlot s1 t
        { sector := sec, pdrv := p, dirty := true, valid := true, data := d }
      with dirty_blocks := true } t = hash_key p sec := by
    show hash_key ((setSlot s1 t
        { sector := sec, pdrv := p, dirty := true, valid := true, data := d }).slots t).pdrv
      ((setSlot s1 t
        { sector := sec, pdrv := p, dirty := true, valid := true, data := d }).slots t).sector
      = hash_key p sec
    rw [setSlot_slots_self]
  show (if b = bucketOf { setSlot s1 t
        { sector := sec, pdrv := p, dirty := true, valid := true, data := d }
      with dirty_blocks := true } t
    then t :: ({ setSlot s1 t
        { sector := sec, pdrv := p, dirty := true, valid := true, data := d }
      with dirty_blocks := true } : CacheState).hash_table (bucketOf { setSlot s1 t
        { sector := sec, pdrv := p, dirty := true, valid := true, data := d }
      with dirty_blocks := true } t)
    else ({ setSlot s1 t
        { sector := sec, pdrv := p, dirty := true, valid := true, data := d }
      with dirty_blocks := true } : CacheState).hash_table b) = _
  rw [hbk]
  rfl

theorem read_load_hash (s1 : CacheState) (p sec t dd : Nat) (b : Nat) :
    (lru_insert_front (hash_insert (setSlot s1 t
      { sector := sec, pdrv := p, dirty := false, valid := true, data := dd }) t) t).hash_table b =
      if b = hash_key p sec then t :: s1.hash_table (hash_key p sec)
      else s1.hash_table b := by
  have hbk : bucketOf (setSlot s1 t
      { sector := sec, pdrv := p, dirty := false, valid := true, data := dd }) t
      = hash_key p sec := by
    show hash_key ((setSlot s1 t
        { sector := sec, pdrv := p, dirty := false, valid := true, data := dd }).slots t).pdrv
      ((setSlot s1 t
        { sector := sec, pdrv := p, dirty := false, valid := true, data := dd }).slots t).sector
      = hash_key p sec
    rw [setSlot_slots_self]
  show (if b = bucketOf (setSlot s1 t
        { sector := sec, pdrv := p, dirty := false, valid := true, data := dd }) t
    then t :: (setSlot s1 t
        { sector := sec, pdrv := p, dirty := false, valid := true, data := dd }).hash_table
          (bucketOf (setSlot s1 t
            { sector := sec, pdrv := p, dirty := false, valid := true, data := dd }) t)
    else (setSlot s1 t
        { sector := sec, pdrv := p, dirty := false, valid := true, data := dd }).hash_table b)
    = _
  rw [hbk]
  rfl

/-- After an eviction of slot t followed by storing a fresh key (p, sec)
into t, the evicted slot's old key misses: the new occupant of t carries
the fresh key, and every other slot of the old chain is ruled out by the
at-most-one-slot-per-key invariant of the pre-state. -/
theorem evicted_key_misses (s : CacheState) (t p sec : Nat) (e : CacheEntry)
    (inv : CacheInv s) (htlt : t < CACHE_SIZE)
    (hfull : ∀ i, i < CACHE_SIZE → (s.slots i).valid = true)
    (hnokey : ¬((s.slots t).pdrv = p ∧ (s.slots t).sector = sec))
    (hep : e.pdrv = p) (hes : e.sector = sec)
    (S : CacheState)
    (hslots : ∀ j, S.slots j = if j = t then e else s.slots j)
    (hhash : ∀ b1, S.hash_table b1 =
      if b1 = hash_key p sec then t :: (evictCommit s t).hash_table (hash_key p sec)
      else (evictCommit s t).hash_table b1) :
    hash_lookup S (s.slots t).pdrv (s.slots t).sector = none := by
  unfold hash_lookup
  apply List.find?_eq_none.mpr
  intro x hx
  rw [hhash] at hx
  by_cases hxt : x = t
  · subst hxt
    rw [hslots x, if_pos rfl]
    unfold entry_matches
    simp only [Bool.and_eq_true, beq_iff_eq]
    rintro ⟨⟨-, hseceq⟩, hpeq⟩
    exact hnokey ⟨hpeq.symm.trans hep, hseceq.symm.trans hes⟩
  · rw [hslots x, if_neg hxt]
    have hxmem : x ∈ s.hash_table (hash_key (s.slots t).pdrv (s.slots t).sector) := by
      by_cases hKB : hash_key (s.slots t).pdrv (s.slots t).sector = hash_key p sec
      · rw [if_pos hKB] at hx
        rcases List.mem_cons.mp hx with hc | hc
        · exact absurd hc hxt
        · have hbk2 : hash_key p sec = bucketOf s t := hKB.symm
          rw [evictCommit_hash, if_pos hbk2] at hc
          exact List.mem_of_mem_erase hc
      · rw [if_neg hKB] at hx
        have hbk3 : hash_key (s.slots t).pdrv (s.slots t).sector = bucketOf s t := rfl
        rw [evictCommit_hash, if_pos hbk3] at hx
        exact List.mem_of_mem_erase hx
    intro hmatch
    unfold entry_matches at hmatch
    simp only [Bool.and_eq_true, beq_iff_eq] at hmatch
    obtain ⟨⟨hv, hsec2⟩, hp2⟩ := hmatch
    have hxlt : x < CACHE_SIZE := inv.hash_lt _ (hash_key_lt _ _) x hxmem
    exact hxt (inv.uniq x hxlt t htlt hv (hfull t htlt) hp2 hsec2)

/-- Claim C8: on a reachable state whose cache is full (all 128 pool slots
valid), an access with a fresh key - a write_block or a read_block - under
a succeeding device evicts exactly the least recently touched cached slot,
the LRU tail: the tail slot is written back to the device if and only if
it was dirty (exactly one device write, carrying its key and payload,
before the slot is reused), the new key is stored in that slot (dirty for
the write, clean with the device's data for the read, which also performs
exactly one device read), every other slot is untouched, and a subsequent
lookup of the evicted key misses. -/
theorem c8_eviction_lru_tail (dev : Device) (s : CacheState) (p sec d t : Nat)
    (b : Bool)
    (h : ReachableSI s)
    (hfull : ∀ i, i < CACHE_SIZE → (s.slots i).valid = true)
    (hmiss : hash_lookup s p sec = none)
    (htail : s.lru.getLast? = some t)
    (hdev : ∀ a b c, dev.write a b c = RES_OK)
    (hdevr : (dev.read p sec).1 = RES_OK) :
    ((block_cache_write_block dev s p sec d).code = RES_OK ∧
     (block_cache_write_block dev s p sec d).log =
       (if (s.slots t).dirty = true then
         [DevEvent.writeEv (s.slots t).pdrv (s.slots t).sector (s.slots t).data]
        else []) ∧
     (block_cache_write_block dev s p sec d).st.slots t =
       { sector := sec, pdrv := p, dirty := true, valid := true, data := d } ∧
     (∀ j, j < CACHE_SIZE → j ≠ t →
       (block_cache_write_block dev s p sec d).st.slots j = s.slots j) ∧
     hash_lookup (block_cache_write_block dev s p sec d).st
       (s.slots t).pdrv (s.slots t).sector = none) ∧
    ((block_cache_read_block dev s p sec b).code = RES_OK ∧
     (block_cache_read_block dev s p sec b).log =
       (if (s.slots t).dirty = true then
         [DevEvent.writeEv (s.slots t).pdrv (s.slots t).sector (s.slots t).data]
        else []) ++ [DevEvent.readEv p sec] ∧
     (block_cache_read_block dev s p sec b).st.slots t =
       { sector := sec, pdrv := p, dirty := false, valid := true,
         data := (dev.read p sec).2 } ∧
     (∀ j, j < CACHE_SIZE → j ≠ t →
       (block_cache_read_block dev s p sec b).st.slots j = s.slots j) ∧
     hash_lookup (block_cache_read_block dev s p sec b).st
       (s.slots t).pdrv (s.slots t).sector = none) := by
  have inv := reachableSI_inv s h
  have htmem : t ∈ s.lru := getLast?_mem_list htail
  have htlt : t < CACHE_SIZE := inv.lru_lt t htmem
  have hfree : s.free = [] := by
    rcases hfr : s.free with _ | ⟨x, xs⟩
    · rfl
    · exfalso
      have hx : x ∈ s.free := by rw [hfr]; exact List.mem_cons_self x xs
      have h1 := inv.free_invalid x hx
      have h2 := hfull x (inv.free_lt x hx)
      rw [h1] at h2
      exact Bool.false_ne_true h2
  have hnokey := lookup_none_no_valid s p sec inv hmiss t htlt (hfull t htlt)
  have hev : evict_entry dev s =
      { slot := some t, st := evictCommit s t, err := RES_OK
        log := if (s.slots t).dirty = true then
          [DevEvent.writeEv (s.slots t).pdrv (s.slots t).sector (s.slots t).data]
        else [] } := by
    unfold evict_entry
    rw [htail]
    dsimp only
    by_cases hd : (s.slots t).dirty = true
    · rw [if_pos (show ((s.slots t).valid && (s.slots t).dirty) = true by
        rw [hfull t htlt, hd]; rfl)]
      rw [hdev _ _ _]
      rw [if_neg (by simp : ¬(RES_OK ≠ RES_OK))]
      rw [if_pos hd]
      rfl
    · rw [if_neg (show ¬((s.slots t).valid && (s.slots t).dirty) = true by
        rw [hfull t htlt]
        simpa using hd)]
      rw [if_neg hd]
      rfl
  constructor
  · -- the write_block access
    have hwb : block_cache_write_block dev s p sec d =
        { st := write_miss_store (evictCommit s t) p sec t d, code := RES_OK
          log := if (s.slots t).dirty = true then
            [DevEvent.writeEv (s.slots t).pdrv (s.slots t).sector (s.slots t).data]
          else [] } := by
      unfold block_cache_write_block
      rw [hmiss, free_get_nil s hfree]
      dsimp only
      rw [hev]
    rw [hwb]
    have hxslots : ∀ j, (write_miss_store (evictCommit s t) p sec t d).slots j
        = if j = t then { sector := sec, pdrv := p, dirty := true, valid := true, data := d }
          else s.slots j := by
      intro j
      by_cases hj : j = t
      · rw [if_pos hj, hj]
        show (setSlot (evictCommit s t) t
          { sector := sec, pdrv := p, dirty := true, valid := true, data := d }).slots t = _
        exact setSlot_slots_self _ _ _
      · rw [if_neg hj]
        show (setSlot (evictCommit s t) t
          { sector := sec, pdrv := p, dirty := true, valid := true, data := d }).slots j = _
        rw [setSlot_slots_ne _ _ _ _ hj, evictCommit_slots, if_neg hj]
    refine ⟨rfl, rfl, ?_, ?_, ?_⟩
    · rw [hxslots t, if_pos rfl]
    · intro j _ hjt
      rw [hxslots j, if_neg hjt]
    · exact evicted_key_misses s t p sec
        { sector := sec, pdrv := p, dirty := true, valid := true, data := d }
        inv htlt hfull hnokey rfl rfl _ hxslots
        (write_miss_store_hash (evictCommit s t) p sec t d)
  · -- the read_block access
    have hrm : read_miss_load dev (evictCommit s t) p sec t b =
        { st := lru_insert_front (hash_insert (setSlot (evictCommit s t) t
            { sector := sec, pdrv := p, dirty := false, valid := true,
              data := (dev.read p sec).2 }) t) t
          code := RES_OK
          out := if b then some (dev.read p sec).2 else none
          log := [DevEvent.readEv p sec] } := by
      unfold read_miss_load
      dsimp only
      rw [if_neg (show ¬((dev.read p sec).1 ≠ RES_OK) by rw [hdevr]; simp)]
    have hrb : block_cache_read_block dev s p sec b =
        { st := (read_miss_load dev (evictCommit s t) p sec t b).st
          code := (read_miss_load dev (evictCommit s t) p sec t b).code
          out := (read_miss_load dev (evictCommit s t) p sec t b).out
          log := (if (s.slots t).dirty = true then
              [DevEvent.writeEv (s.slots t).pdrv (s.slots t).sector (s.slots t).data]
            else []) ++ (read_miss_load dev (evictCommit s t) p sec t b).log } := by
      unfold block_cache_read_block
      rw [hmiss, free_get_nil s hfree]
      dsimp only
      rw [hev]
    rw [hrb, hrm]
    have hxslots : ∀ j, (lru_insert_front (hash_insert (setSlot (evictCommit s t) t
          { sector := sec, pdrv := p, dirty := false, valid := true, data := (dev.read p sec).2 }) t) t).slots j
        = if j = t then { sector := sec, pdrv := p, dirty := false, valid := true, data := (dev.read p sec).2 }
          else s.slots j := by
      intro j
      by_cases hj : j = t
      · rw [if_pos hj, hj]
        show (setSlot (evictCommit s t) t
          { sector := sec, pdrv := p, dirty := false, valid := true,
            data := (dev.read p sec).2 }).slots t = _
        exact setSlot_slots_self _ _ _
      · rw [if_neg hj]
        show (setSlot (evictCommit s t) t
          { sector := sec, pdrv := p, dirty := false, valid := true,
            data := (dev.read p sec).2 }).slots j = _
        rw [setSlot_slots_ne _ _ _ _ hj, evictCommit_slots, if_neg hj]
    refine ⟨rfl, rfl, ?_, ?_, ?_⟩
    · rw [hxslots t, if_pos rfl]
    · intro j _ hjt
      rw [hxslots j, if_neg hjt]
    · exact evicted_key_misses s t p sec
        { sector := sec, pdrv := p, dirty := false, valid := true,
          data := (dev.read p sec).2 }
        inv htlt hfull hnokey rfl rfl _ hxslots
        (read_load_hash (evictCommit s t) p sec t (dev.read p sec).2)

/-- Running a list of operations preserves reachability. -/
theorem reachableSI_runOps (l : List (Device × Op)) (s : CacheState)
    (h : ReachableSI s) : ReachableSI (runOps l s) := by
  induction l generalizing s with
  | nil => exact h
  | cons hd tl ih =>
    obtain ⟨dev, op⟩ := hd
    exact ih _ (ReachableSI.step dev op h)

/-- One hundred and twenty-eight writes of distinct sectors fill the cache. -/
def c8Ops : List (Device × Op) :=
  (List.range CACHE_SIZE).map (fun k => (okDevice, Op.wr 0 k 0))

def c8State : CacheState := runOps c8Ops initState

set_option maxRecDepth 1000000 in
/-- Witness for C8: after 128 writes of sectors 0..127 the cache is full,
slot 127 (holding sector 0, still dirty) is the LRU tail and the key
(0, 200) misses; then a write of that key succeeds, emits exactly the
write-back of sector 0, and afterwards the evicted key (0, 0) misses -
and, alternatively, a read of that key succeeds, emits exactly the
write-back of sector 0 followed by one device read, and afterwards the
evicted key (0, 0) misses too. -/
theorem c8_witness :
    ((∀ i, i < CACHE_SIZE → ((c8State).slots i).valid = true) ∧
      hash_lookup c8State 0 200 = none ∧
      c8State.lru.getLast? = some 127) ∧
    (block_cache_write_block okDevice c8State 0 200 7).code = RES_OK ∧
    (block_cache_write_block okDevice c8State 0 200 7).log = [DevEvent.writeEv 0 0 0] ∧
    hash_lookup (block_cache_write_block okDevice c8State 0 200 7).st 0 0 = none ∧
    (block_cache_read_block okDevice c8State 0 200 true).code = RES_OK ∧
    (block_cache_read_block okDevice c8State 0 200 true).log =
      [DevEvent.writeEv 0 0 0, DevEvent.readEv 0 200] ∧
    hash_lookup (block_cache_read_block okDevice c8State 0 200 true).st 0 0 = none := by
  have hslot : c8State.slots 127 =
      { sector := 0, pdrv := 0, dirty := true, valid := true, data := 0 } := by decide
  have hfull : ∀ i, i < CACHE_SIZE → ((c8State).slots i).valid = true := by decide
  have hmiss : hash_lookup c8State 0 200 = none := by decide
  have htail : c8State.lru.getLast? = some 127 := by decide
  have h := c8_eviction_lru_tail okDevice c8State 0 200 7 127 true
    (reachableSI_runOps c8Ops initState ReachableSI.base)
    hfull hmiss htail (fun _ _ _ => rfl) rfl
  refine ⟨⟨hfull, hmiss, htail⟩, h.1.1, ?_, ?_, h.2.1, ?_, ?_⟩
  · rw [h.1.2.1, hslot]
    rfl
  · have h5 := h.1.2.2.2.2
    rw [hslot] at h5
    exact h5
  · rw [h.2.2.1, hslot]
    rfl
  · have h5 := h.2.2.2.2.2
    rw [hslot] at h5
    exact h5

/-! Development for the global dirty-flag invariant over the pointer
model.  The link-manipulating primitives change only link fields; the
decompositions below name each statement of plru_remove and
plru_insert_front so the preservation proofs go statement by statement. -/

/-- Statement 1 of lru_remove: patch the predecessor's lru_next. -/
def plruRemA (u : PState) (k : Nat) : PState :=
  match (u.slots k).lru_prev with
  | some p => psetSlot u p { u.slots p with lru_next := (u.slots k).lru_next }
  | none => u

/-- Statement 2 of lru_remove: patch the successor's lru_prev. -/
def plruRemB (u : PState) (k : Nat) : PState :=
  match (u.slots k).lru_next with
  | some n => psetSlot u n { u.slots n with lru_prev := (u.slots k).lru_prev }
  | none => u

/-- Statement 3 of lru_remove: advance the list head if needed. -/
def plruRemC (u : PState) (k : Nat) : PState :=
  if u.lru_head = some k then { u with lru_head := (u.slots k).lru_next } else u

/-- Statement 4 of lru_remove: retreat the list tail if needed. -/
def plruRemD (u : PState) (k : Nat) : PState :=
  if u.lru_tail = some k then { u with lru_tail := (u.slots k).lru_prev } else u

theorem plru_remove_eq (s : PState) (i : Nat) :
    plru_remove s i =
      psetSlot (plruRemD (plruRemC (plruRemB (plruRemA s i) i) i) i) i
        { (plruRemD (plruRemC (plruRemB (plruRemA s i) i) i) i).slots i with
          lru_prev := none, lru_next := none } := rfl

/-- Statement 2 of lru_insert_front: patch the old head's lru_prev. -/
def plruInsB (u : PState) (k : Nat) : PState :=
  match u.lru_head with
  | some h => psetSlot u h { u.slots h with lru_prev := some k }
  | none => u

/-- Statement 4 of lru_insert_front: set the tail if the list was empty. -/
def plruInsD (u : PState) (k : Nat) : PState :=
  if u.lru_tail = none then { u with lru_tail := some k } else u

theorem plru_insert_front_eq (s : PState) (i : Nat) :
    plru_insert_front s i =
      plruInsD { plruInsB (psetSlot s i
        { s.slots i with lru_next := s.lru_head, lru_prev := none }) i
        with lru_head := some i } i := rfl

/-- Two pointer states with the same valid bit, dirty bit and global
dirty flag. -/
def sameVD (s s1 : PState) : Prop :=
  (∀ j, ((s1.slots j).valid = (s.slots j).valid ∧
         (s1.slots j).dirty = (s.slots j).dirty)) ∧
  s1.dirty_blocks = s.dirty_blocks

theorem sameVD_refl (s : PState) : sameVD s s := ⟨fun _ => ⟨rfl, rfl⟩, rfl⟩

theorem sameVD_trans {s s1 s2 : PState} (h1 : sameVD s s1) (h2 : sameVD s1 s2) :
    sameVD s s2 :=
  ⟨fun j => ⟨(h2.1 j).1.trans (h1.1 j).1, (h2.1 j).2.trans (h1.1 j).2⟩,
   h2.2.trans h1.2⟩

theorem psetSlot_vd (s : PState) (i : Nat) (e : PEntry)
    (hv : e.valid = (s.slots i).valid) (hd : e.dirty = (s.slots i).dirty) :
    sameVD s (psetSlot s i e) := by
  refine ⟨fun j => ?_, rfl⟩
  by_cases hj : j = i
  · constructor
    · show (if j = i then e else s.slots j).valid = (s.slots j).valid
      rw [if_pos hj, hj]
      exact hv
    · show (if j = i then e else s.slots j).dirty = (s.slots j).dirty
      rw [if_pos hj, hj]
      exact hd
  · constructor
    · show (if j = i then e else s.slots j).valid = (s.slots j).valid
      rw [if_neg hj]
    · show (if j = i then e else s.slots j).dirty = (s.slots j).dirty
      rw [if_neg hj]

theorem plruRemA_vd (u : PState) (k : Nat) : sameVD u (plruRemA u k) := by
  unfold plruRemA
  cases hp : (u.slots k).lru_prev with
  | none => exact sameVD_refl u
  | some p => exact psetSlot_vd u p _ rfl rfl

theorem plruRemB_vd (u : PState) (k : Nat) : sameVD u (plruRemB u k) := by
  unfold plruRemB
  cases hn : (u.slots k).lru_next with
  | none => exact sameVD_refl u
  | some n => exact psetSlot_vd u n _ rfl rfl

theorem plruRemC_vd (u : PState) (k : Nat) : sameVD u (plruRemC u k) := by
  unfold plruRemC
  split
  · exact ⟨fun _ => ⟨rfl, rfl⟩, rfl⟩
  · exact sameVD_refl u

theorem plruRemD_vd (u : PState) (k : Nat) : sameVD u (plruRemD u k) := by
  unfold plruRemD
  split
  · exact ⟨fun _ => ⟨rfl, rfl⟩, rfl⟩
  · exact sameVD_refl u

theorem plru_remove_vd (s : PState) (i : Nat) : sameVD s (plru_remove s i) := by
  rw [plru_remove_eq]
  exact sameVD_trans
    (sameVD_trans (sameVD_trans (sameVD_trans (plruRemA_vd s i) (plruRemB_vd _ i))
      (plruRemC_vd _ i)) (plruRemD_vd _ i))
    (psetSlot_vd _ i _ rfl rfl)

theorem plruInsB_vd (u : PState) (k : Nat) : sameVD u (plruInsB u k) := by
  unfold plruInsB
  cases hh : u.lru_head with
  | none => exact sameVD_refl u
  | some h => exact psetSlot_vd u h _ rfl rfl

theorem plruInsD_vd (u : PState) (k : Nat) : sameVD u (plruInsD u k) := by
  unfold plruInsD
  split
  · exact ⟨fun _ => ⟨rfl, rfl⟩, rfl⟩
  · exact sameVD_refl u

theorem plru_insert_front_vd (s : PState) (i : Nat) :
    sameVD s (plru_insert_front s i) := by
  rw [plru_insert_front_eq]
  refine sameVD_trans (psetSlot_vd s i
    { s.slots i with lru_next := s.lru_head, lru_prev := none } rfl rfl) ?_
  refine sameVD_trans (plruInsB_vd _ i) ?_
  exact sameVD_trans
    (show sameVD (plruInsB (psetSlot s i
        { s.slots i with lru_next := s.lru_head, lru_prev := none }) i)
      { plruInsB (psetSlot s i
        { s.slots i with lru_next := s.lru_head, lru_prev := none }) i
        with lru_head := some i } from ⟨fun _ => ⟨rfl, rfl⟩, rfl⟩)
    (plruInsD_vd _ i)

theorem plru_touch_vd (s : PState) (i : Nat) : sameVD s (plru_touch s i) := by
  unfold plru_touch
  split
  · exact sameVD_refl s
  · exact sameVD_trans (plru_remove_vd s i) (plru_insert_front_vd _ i)

theorem phash_insert_vd (s : PState) (i : Nat) : sameVD s (phash_insert s i) := by
  refine sameVD_trans (psetSlot_vd s i
    { s.slots i with
      hash_next := s.hash_table (hash_key (s.slots i).pdrv (s.slots i).sector) }
    rfl rfl) ?_
  exact ⟨fun _ => ⟨rfl, rfl⟩, rfl⟩

theorem phash_remove_walk_vd (s : PState) (i : Nat) :
    ∀ fuel j, sameVD s (phash_remove_walk s i j fuel) := by
  intro fuel
  induction fuel with
  | zero => intro j; exact sameVD_refl s
  | succ fuel ih =>
    intro j
    unfold phash_remove_walk
    cases hn : (s.slots j).hash_next with
    | none => exact sameVD_refl s
    | some k =>
      dsimp only
      by_cases hk : k = i
      · rw [if_pos hk]
        exact sameVD_trans
          (psetSlot_vd s j { s.slots j with hash_next := (s.slots i).hash_next }
            rfl rfl)
          (psetSlot_vd _ i _ rfl rfl)
      · rw [if_neg hk]
        exact ih k

theorem phash_remove_vd (s : PState) (i : Nat) : sameVD s (phash_remove s i) := by
  unfold phash_remove
  dsimp only
  cases hh : s.hash_table (hash_key (s.slots i).pdrv (s.slots i).sector) with
  | none => exact sameVD_refl s
  | some j =>
    dsimp only
    by_cases hj : j = i
    · rw [if_pos hj]
      refine sameVD_trans ?_ (psetSlot_vd _ i _ rfl rfl)
      exact ⟨fun _ => ⟨rfl, rfl⟩, rfl⟩
    · rw [if_neg hj]
      exact phash_remove_walk_vd s i (2 * CACHE_SIZE) j

/-- The dirty-flag invariant of C10: when the global flag is clear, no
valid slot is dirty. -/
def pflagInv (s : PState) : Prop :=
  s.dirty_blocks = false → ∀ i, i < CACHE_SIZE →
    (s.slots i).valid = true → (s.slots i).dirty = false

/-- A step from s to s1 that introduces no new dirty valid slot and keeps
the flag. -/
def cleanerVD (s s1 : PState) : Prop :=
  (∀ j, (s1.slots j).valid = true → (s1.slots j).dirty = true →
    ((s.slots j).valid = true ∧ (s.slots j).dirty = true)) ∧
  s1.dirty_blocks = s.dirty_blocks

theorem sameVD_cleaner {s s1 : PState} (h : sameVD s s1) : cleanerVD s s1 :=
  ⟨fun j hv hd => ⟨(h.1 j).1 ▸ hv, (h.1 j).2 ▸ hd⟩, h.2⟩

theorem cleanerVD_trans {s s1 s2 : PState} (h1 : cleanerVD s s1)
    (h2 : cleanerVD s1 s2) : cleanerVD s s2 :=
  ⟨fun j hv hd => h1.1 j (h2.1 j hv hd).1 (h2.1 j hv hd).2, h2.2.trans h1.2⟩

theorem cleanerVD_flagInv {s s1 : PState} (hc : cleanerVD s s1)
    (h : pflagInv s) : pflagInv s1 := by
  intro hf i hi hv
  by_contra hd
  rw [Bool.not_eq_false] at hd
  have h2 := hc.1 i hv hd
  have hflag : s.dirty_blocks = false := by
    rw [← hc.2]
    exact hf
  have h3 := h hflag i hi h2.1
  rw [h3] at h2
  exact Bool.false_ne_true h2.2

theorem psetSlot_cleaner (s : PState) (i : Nat) (e : PEntry)
    (hd : e.dirty = false) : cleanerVD s (psetSlot s i e) := by
  refine ⟨fun j hv hdj => ?_, rfl⟩
  by_cases hj : j = i
  · exfalso
    subst hj
    have : (if j = j then e else s.slots j).dirty = true := hdj
    rw [if_pos rfl] at this
    rw [hd] at this
    exact Bool.false_ne_true this
  · have hv2 : (if j = i then e else s.slots j).valid = true := hv
    have hd2 : (if j = i then e else s.slots j).dirty = true := hdj
    rw [if_neg hj] at hv2 hd2
    exact ⟨hv2, hd2⟩

theorem pevict_entry_cleaner (dev : Device) (s : PState) :
    cleanerVD s (pevict_entry dev s).st := by
  unfold pevict_entry
  cases ht : s.lru_tail with
  | none => exact sameVD_cleaner (sameVD_refl s)
  | some i =>
    dsimp only
    by_cases hvd : ((s.slots i).valid && (s.slots i).dirty) = true
    · rw [if_pos hvd]
      by_cases hw : dev.write (s.slots i).pdrv (s.slots i).sector (s.slots i).data ≠ RES_OK
      · rw [if_pos hw]
        exact sameVD_cleaner (sameVD_refl s)
      · rw [if_neg hw]
        refine cleanerVD_trans (sameVD_cleaner
          (sameVD_trans (phash_remove_vd s i) (plru_remove_vd _ i))) ?_
        refine psetSlot_cleaner _ i _ ?_
        rfl
    · rw [if_neg hvd]
      refine cleanerVD_trans (sameVD_cleaner
        (sameVD_trans (phash_remove_vd s i) (plru_remove_vd _ i))) ?_
      refine psetSlot_cleaner _ i _ ?_
      rfl

theorem pread_miss_load_cleaner (dev : Device) (s : PState)
    (pdrv sector i : Nat) (b : Bool) :
    cleanerVD s (pread_miss_load dev s pdrv sector i b).st := by
  unfold pread_miss_load
  by_cases hr : (dev.read pdrv sector).1 ≠ RES_OK
  · rw [if_pos hr]
    exact sameVD_cleaner (sameVD_refl s)
  · rw [if_neg hr]
    refine cleanerVD_trans (psetSlot_cleaner s i
      { s.slots i with sector := sector, pdrv := pdrv, dirty := false
                       valid := true, data := (dev.read pdrv sector).2 } rfl) ?_
    exact sameVD_cleaner (sameVD_trans (phash_insert_vd _ i)
      (plru_insert_front_vd _ i))

theorem pread_flagInv (dev : Device) (s : PState) (pdrv sector : Nat)
    (b : Bool) (h : pflagInv s) :
    pflagInv (pblock_cache_read_block dev s pdrv sector b).st := by
  unfold pblock_cache_read_block
  cases hl : phash_lookup s pdrv sector with
  | some i =>
    exact cleanerVD_flagInv (sameVD_cleaner (plru_touch_vd s i)) h
  | none =>
    rcases hfg : pfree_get s with ⟨o, s1⟩
    have hs1 : sameVD s s1 := by
      have h2 := hfg
      unfold pfree_get at h2
      cases hfh : s.free_head with
      | none =>
        rw [hfh] at h2
        dsimp only at h2
        injection h2 with h2a h2b
        rw [← h2b]
        exact sameVD_refl s
      | some k =>
        rw [hfh] at h2
        dsimp only at h2
        injection h2 with h2a h2b
        rw [← h2b]
        exact ⟨fun _ => ⟨rfl, rfl⟩, rfl⟩
    cases o with
    | some i =>
      exact cleanerVD_flagInv (cleanerVD_trans (sameVD_cleaner hs1)
        (pread_miss_load_cleaner dev s1 pdrv sector i b)) h
    | none =>
      dsimp only
      cases hev : (pevict_entry dev s1).slot with
      | none =>
        exact cleanerVD_flagInv (cleanerVD_trans (sameVD_cleaner hs1)
          (pevict_entry_cleaner dev s1)) h
      | some i =>
        exact cleanerVD_flagInv (cleanerVD_trans (cleanerVD_trans
          (sameVD_cleaner hs1) (pevict_entry_cleaner dev s1))
          (pread_miss_load_cleaner dev (pevict_entry dev s1).st pdrv sector i b)) h

theorem flag_true_flagInv {s : PState} (h : s.dirty_blocks = true) :
    pflagInv s := by
  intro hf
  rw [h] at hf
  exact absurd hf (by simp)

theorem pwrite_miss_store_flag (s : PState) (pdrv sector i d : Nat) :
    (pwrite_miss_store s pdrv sector i d).dirty_blocks = true := by
  unfold pwrite_miss_store
  have h1 := (phash_insert_vd ({ psetSlot s i
    { s.slots i with sector := sector, pdrv := pdrv, dirty := true
                     valid := true, data := d } with dirty_blocks := true }) i).2
  have h2 := (plru_insert_front_vd (phash_insert { psetSlot s i
    { s.slots i with sector := sector, pdrv := pdrv, dirty := true
                     valid := true, data := d } with dirty_blocks := true } i) i).2
  rw [h2, h1]

theorem pwrite_flagInv (dev : Device) (s : PState) (pdrv sector d : Nat)
    (h : pflagInv s) :
    pflagInv (pblock_cache_write_block dev s pdrv sector d).st := by
  unfold pblock_cache_write_block
  cases hl : phash_lookup s pdrv sector with
  | some i =>
    dsimp only
    apply flag_true_flagInv
    exact (plru_touch_vd _ i).2
  | none =>
    rcases hfg : pfree_get s with ⟨o, s1⟩
    have hs1 : sameVD s s1 := by
      have h2 := hfg
      unfold pfree_get at h2
      cases hfh : s.free_head with
      | none =>
        rw [hfh] at h2
        dsimp only at h2
        injection h2 with h2a h2b
        rw [← h2b]
        exact sameVD_refl s
      | some k =>
        rw [hfh] at h2
        dsimp only at h2
        injection h2 with h2a h2b
        rw [← h2b]
        exact ⟨fun _ => ⟨rfl, rfl⟩, rfl⟩
    cases o with
    | some i =>
      exact flag_true_flagInv (pwrite_miss_store_flag s1 pdrv sector i d)
    | none =>
      dsimp only
      cases hev : (pevict_entry dev s1).slot with
      | none =>
        exact cleanerVD_flagInv (cleanerVD_trans (sameVD_cleaner hs1)
          (pevict_entry_cleaner dev s1)) h
      | some i =>
        exact flag_true_flagInv
          (pwrite_miss_store_flag (pevict_entry dev s1).st pdrv sector i d)

theorem psetSlot_pslots_self (s : PState) (i : Nat) (e : PEntry) :
    (psetSlot s i e).slots i = e := by
  show (if i = i then e else s.slots i) = e
  rw [if_pos rfl]

theorem psetSlot_pslots_ne (s : PState) (i j : Nat) (e : PEntry) (hj : j ≠ i) :
    (psetSlot s i e).slots j = s.slots j := by
  show (if j = i then e else s.slots j) = s.slots j
  rw [if_neg hj]

theorem pinvalidate_if_slots_ne (ia : Bool) (s : PState) (i j : Nat)
    (hj : j ≠ i) : (pinvalidate_if ia s i).slots j = s.slots j := by
  unfold pinvalidate_if
  split
  · exact psetSlot_pslots_ne s i j _ hj
  · rfl

theorem pinvalidate_if_dirty (ia : Bool) (s : PState) (i : Nat) :
    ((pinvalidate_if ia s i).slots i).dirty = (s.slots i).dirty := by
  unfold pinvalidate_if
  split
  · rw [psetSlot_pslots_self]
  · rfl

theorem pinvalidate_if_flag (ia : Bool) (s : PState) (i : Nat) :
    (pinvalidate_if ia s i).dirty_blocks = s.dirty_blocks := by
  unfold pinvalidate_if
  split <;> rfl

/-- The flush loop never touches the global dirty flag. -/
theorem pflush_loop_flag (dev : Device) (fa ia : Bool) :
    ∀ fuel i s, (pflush_loop dev fa ia i fuel s).1.dirty_blocks = s.dirty_blocks := by
  intro fuel
  induction fuel with
  | zero => intro i s; rfl
  | succ fuel ih =>
    intro i s
    unfold pflush_loop
    dsimp only
    by_cases hvd : ((s.slots i).valid && (s.slots i).dirty) = true
    · rw [if_pos hvd]
      by_cases hw : dev.write (s.slots i).pdrv (s.slots i).sector (s.slots i).data ≠ RES_OK
      · rw [if_pos hw]
      · rw [if_neg hw]
        by_cases hfa : fa = false
        · rw [if_pos hfa]
          rfl
        · rw [if_neg hfa]
          dsimp only
          rw [ih, pinvalidate_if_flag]
          rfl
    · rw [if_neg hvd]
      rw [ih, pinvalidate_if_flag]

/-- When the flush loop completes its scan (no early return), every slot
in the scanned range is clean-or-invalid and every slot outside it is
untouched. -/
theorem pflush_loop_none (dev : Device) (fa ia : Bool) :
    ∀ fuel i s,
      (pflush_loop dev fa ia i fuel s).2.1 = none →
      (∀ j, j < i ∨ i + fuel ≤ j →
        (pflush_loop dev fa ia i fuel s).1.slots j = s.slots j) ∧
      (∀ j, i ≤ j → j < i + fuel →
        ((pflush_loop dev fa ia i fuel s).1.slots j).valid = true →
        ((pflush_loop dev fa ia i fuel s).1.slots j).dirty = false) := by
  intro fuel
  induction fuel with
  | zero =>
    intro i s _
    refine ⟨fun j _ => rfl, fun j h1 h2 _ => ?_⟩
    omega
  | succ fuel ih =>
    intro i s h
    unfold pflush_loop at h ⊢
    dsimp only at h ⊢
    by_cases hvd : ((s.slots i).valid && (s.slots i).dirty) = true
    · rw [if_pos hvd] at h ⊢
      by_cases hw : dev.write (s.slots i).pdrv (s.slots i).sector (s.slots i).data ≠ RES_OK
      · rw [if_pos hw] at h
        exact absurd h (by simp)
      · rw [if_neg hw] at h ⊢
        by_cases hfa : fa = false
        · rw [if_pos hfa] at h
          exact absurd h (by simp)
        · rw [if_neg hfa] at h ⊢
          dsimp only at h ⊢
          have hrec := ih (i + 1)
            (pinvalidate_if ia (psetSlot s i { s.slots i with dirty := false }) i) h
          constructor
          · intro j hj
            have hji : j ≠ i := by omega
            rw [hrec.1 j (by omega)]
            rw [pinvalidate_if_slots_ne _ _ _ _ hji]
            exact psetSlot_pslots_ne s i j _ hji
          · intro j hj1 hj2
            by_cases hji : j = i
            · subst hji
              rw [hrec.1 j (by omega)]
              intro _
              rw [pinvalidate_if_dirty, psetSlot_pslots_self]
            · exact hrec.2 j (by omega) (by omega)
    · rw [if_neg hvd] at h ⊢
      have hrec := ih (i + 1) (pinvalidate_if ia s i) h
      constructor
      · intro j hj
        have hji : j ≠ i := by omega
        rw [hrec.1 j (by omega)]
        exact pinvalidate_if_slots_ne _ _ _ _ hji
      · intro j hj1 hj2
        by_cases hji : j = i
        · subst hji
          rw [hrec.1 j (by omega)]
          unfold pinvalidate_if
          split
          · rw [psetSlot_pslots_self]
            intro hv
            exact absurd hv (by simp)
          · intro hv
            rw [hv] at hvd
            simpa using hvd
        · exact hrec.2 j (by omega) (by omega)

theorem pflush_flagInv (dev : Device) (fa ia : Bool) (s : PState)
    (h : pflagInv s) : pflagInv (pblock_cache_flush dev fa ia s).st := by
  unfold pblock_cache_flush
  by_cases hflag : s.dirty_blocks = false
  · rw [if_pos hflag]
    exact h
  · rw [if_neg hflag]
    dsimp only
    cases hr : (pflush_loop dev fa ia 0 CACHE_SIZE s).2.1 with
    | some code =>
      dsimp only
      intro hf
      exfalso
      have hfl := pflush_loop_flag dev fa ia CACHE_SIZE 0 s
      rw [hf] at hfl
      exact hflag hfl.symm
    | none =>
      dsimp only
      intro _ i hi hv
      have hn := pflush_loop_none dev fa ia CACHE_SIZE 0 s hr
      exact hn.2 i (Nat.zero_le i) (by omega) hv

theorem pinit_free_loop_dirty :
    ∀ (n i : Nat) (s : PState), (∀ j, (s.slots j).dirty = false) →
      ∀ j, ((pinit_free_loop i n s).slots j).dirty = false := by
  intro n
  induction n with
  | zero => intro i s h j; exact h j
  | succ n ih =>
    intro i s h j
    unfold pinit_free_loop
    dsimp only
    refine ih (i + 1) _ ?_ j
    intro j2
    split
    · unfold pfree_insert
      by_cases hj2 : j2 = i
      · subst hj2
        show ((psetSlot s j2 _).slots j2).dirty = false
        rw [psetSlot_pslots_self]
        exact h j2
      · show ((psetSlot s i _).slots j2).dirty = false
        rw [psetSlot_pslots_ne s i j2 _ hj2]
        exact h j2
    · exact h j2

theorem pblock_cache_init_dirty (s : PState) (j : Nat) :
    ((pblock_cache_init s).slots j).dirty = false := by
  unfold pblock_cache_init
  dsimp only
  exact pinit_free_loop_dirty CACHE_SIZE 0
    { slots := fun _ => pzeroEntry
      hash_table := fun _ => none
      dirty_blocks := s.dirty_blocks
      lru_head := none
      lru_tail := none
      free_head := s.free_head } (fun _ => rfl) j

theorem pinit_flagInv (s : PState) : pflagInv (pblock_cache_init s) :=
  fun _ i _ _ => pblock_cache_init_dirty s i

/-- Claim C10: every public operation of the cache — init, read_block,
write_block and flush, under any device behaviour — preserves the
invariant that a clear s_dirty_blocks flag implies no valid slot is dirty;
consequently the flush short-circuit on a clear flag never skips a slot
that still needs write-back: on an invariant state with the flag clear,
flush returns at once with the state unchanged, no device I/O, and indeed
no valid slot is dirty. -/
theorem c10_dirty_flag_invariant :
    (∀ (dev : Device) (op : POp) (s : PState),
      pflagInv s → pflagInv (papplyOp dev op s)) ∧
    (∀ (dev : Device) (fa ia : Bool) (s : PState), pflagInv s →
      s.dirty_blocks = false →
      (pblock_cache_flush dev fa ia s).st = s ∧
      (pblock_cache_flush dev fa ia s).log = [] ∧
      ∀ i, i < CACHE_SIZE → (s.slots i).valid = true →
        (s.slots i).dirty = false) := by
  constructor
  · intro dev op s h
    cases op with
    | initOp => exact pinit_flagInv s
    | rd p sec b => exact pread_flagInv dev s p sec b h
    | wr p sec d => exact pwrite_flagInv dev s p sec d h
    | fl fa ia => exact pflush_flagInv dev fa ia s h
  · intro dev fa ia s h hflag
    refine ⟨?_, ?_, h hflag⟩
    · unfold pblock_cache_flush
      rw [if_pos hflag]
    · unfold pblock_cache_flush
      rw [if_pos hflag]

set_option maxRecDepth 1000000 in
/-- Witness for C10: at boot the flag is set so the invariant holds
vacuously; it survives a write; after flush(true, false) from boot the
flag is clear, the invariant holds, and flush(false, false) on that state
is the pure short-circuit. -/
theorem c10_witness :
    (pflagInv pbootState ∧
      pflagInv (papplyOp okDevice (POp.wr 0 5 7) pbootState)) ∧
    (pflagInv (papplyOp okDevice (POp.fl true false) pbootState) ∧
      (papplyOp okDevice (POp.fl true false) pbootState).dirty_blocks = false ∧
      (pblock_cache_flush okDevice false false
        (papplyOp okDevice (POp.fl true false) pbootState)).st =
        papplyOp okDevice (POp.fl true false) pbootState ∧
      (pblock_cache_flush okDevice false false
        (papplyOp okDevice (POp.fl true false) pbootState)).log = []) := by
  have hboot : pflagInv pbootState := fun hf => absurd hf (by decide)
  have hafter : pflagInv (papplyOp okDevice (POp.fl true false) pbootState) :=
    fun _ => by decide
  have hflag : (papplyOp okDevice (POp.fl true false) pbootState).dirty_blocks
      = false := by decide
  have h2 := c10_dirty_flag_invariant.2 okDevice false false
    (papplyOp okDevice (POp.fl true false) pbootState) hafter hflag
  exact ⟨⟨hboot, c10_dirty_flag_invariant.1 okDevice (POp.wr 0 5 7) pbootState hboot⟩,
    ⟨hafter, hflag, h2.1, h2.2.1⟩⟩

/-- Running a list of operations preserves pointer-level reachability. -/
theorem pReachable_prunOps (dev : Device) (l : List POp) (s : PState)
    (h : PReachable s) : PReachable (prunOps dev l s) := by
  induction l generalizing s with
  | nil => exact h
  | cons op tl ih => exact ih _ (PReachable.step dev op h)

/-- Filler keys whose hash bucket differs from bucket 0 (the bucket of
sector 0 on drive 0). -/
def c1FillSectors : List Nat :=
  ((List.range 500).filter (fun s => hash_key 0 s ≠ 0)).take 125

/-- An operation sequence the integration layer can produce: a second
init (disk re-initialisation path) after two writes, then writes that
exhaust and wrap the corrupted free list. -/
def c1Trace : List POp :=
  [POp.initOp, POp.wr 0 1000 0, POp.wr 0 1001 0, POp.initOp,
   POp.wr 0 0 11, POp.wr 0 27 12, POp.wr 0 394 13]
  ++ c1FillSectors.map (fun sec => POp.wr 0 sec 0)
  ++ [POp.wr 0 1002 14, POp.wr 0 0 15]

def c1State : PState := prunOps okDevice c1Trace pbootState

set_option maxRecDepth 1000000 in
/-- Claim C1 is refuted by the code: block_cache_init never resets
s_free_head, so a second init leaves the stale free head chained into the
freshly pushed free list, free_get then hands out slots that are already
cached, and the trace c1Trace ends in a reachable state in which the two
distinct pool slots 126 and 127 are both valid for the same key
(drive 0, sector 0). -/
theorem c1_duplicate_cached_key :
    PReachable c1State ∧
    (c1State.slots 126).valid = true ∧
    (c1State.slots 126).pdrv = 0 ∧ (c1State.slots 126).sector = 0 ∧
    (c1State.slots 127).valid = true ∧
    (c1State.slots 127).pdrv = 0 ∧ (c1State.slots 127).sector = 0 :=
  ⟨pReachable_prunOps okDevice c1Trace pbootState PReachable.boot, by decide⟩
